import Mathlib

/-!
# The sequence operator of the SFrame query engine

A shallow embedding of `operator_impl<planner_node_type::SEQUENCE_NODE>`
(`oss_src/sframe_query_engine/operators/sequence.hpp`), the source operator that
generates the integers of a half-open range block by block.

Machine integers are mathematical integers together with explicit reductions
modulo `2^64`: `flex_int` and `int64_t` are 64-bit two's complement values,
`size_t` is a 64-bit unsigned value. Signed arithmetic that leaves the 64-bit
range wraps around, which is what the conversions of the source do on the
platforms the engine is built for. The inputs of a theorem that stand for
`flex_int` values carry the hypothesis `is_flex_int`.

Assertions of the source (`ASSERT_LE`, `ASSERT_EQ`, `ASSERT_TRUE`) abort the call;
a function that can abort returns an `Option`, `none` standing for the abort.
The loop of `execute` need not terminate for every block size, so it carries a
fuel argument bounding the number of iterations; `none` means the fuel ran out.
-/

namespace query_eval

/-! ## Machine integers -/

/-- Modelled from the spec: `flex_int`, the integer scalar of the engine, declared in
`flexible_type.hpp` as a 64-bit signed integer. A value of this type is an integer
satisfying `is_flex_int`. -/
abbrev flex_int := Int

/-- The unsigned 64-bit type `size_t`. A value of this type is a natural number
satisfying `is_size_t`. -/
abbrev size_t := Nat

/-- The values a 64-bit signed integer can hold. -/
def is_flex_int (x : Int) : Prop :=
  -9223372036854775808 ≤ x ∧ x < 9223372036854775808

/-- The values a 64-bit unsigned integer can hold. -/
def is_size_t (n : Nat) : Prop :=
  n < 18446744073709551616

instance (x : Int) : Decidable (is_flex_int x) :=
  inferInstanceAs (Decidable (-9223372036854775808 ≤ x ∧ x < 9223372036854775808))

instance (n : Nat) : Decidable (is_size_t n) :=
  inferInstanceAs (Decidable (n < 18446744073709551616))

/-- Conversion of an integer to `size_t`: reduction modulo `2^64`. -/
def to_size_t (x : Int) : Nat :=
  (x % 18446744073709551616).toNat

/-- Conversion of an unsigned value to a 64-bit signed integer: the value modulo `2^64`
read as two's complement. -/
def to_flex_int (n : Nat) : Int :=
  if n % 18446744073709551616 < 9223372036854775808 then
    ((n % 18446744073709551616 : Nat) : Int)
  else
    ((n % 18446744073709551616 : Nat) : Int) - 18446744073709551616

/-- The result of a signed 64-bit operation whose exact value is `x`. -/
def wrap_flex_int (x : Int) : Int :=
  to_flex_int (to_size_t x)

/-! ## Scalar values, plan nodes, blocks and the execution context -/

/-- Modelled from the spec: the scalar value type `flexible_type`, a closed tagged union
declared outside the sources at hand, restricted here to its integer variant, the only
one the sequence operator stores in a plan node or writes into a block. -/
structure flexible_type where
  intval : flex_int
deriving DecidableEq

/-- Conversion of a scalar value to `flex_int`. -/
def flexible_type.as_flex_int (v : flexible_type) : flex_int :=
  v.intval

/-- Conversion of a scalar value to `size_t`. -/
def flexible_type.as_size_t (v : flexible_type) : size_t :=
  to_size_t v.intval

/-- Difference of two integer scalar values, a signed 64-bit subtraction. -/
def flexible_type.sub (a b : flexible_type) : flexible_type :=
  ⟨wrap_flex_int (a.intval - b.intval)⟩

/-- Modelled from the spec: the column type tags `flex_type_enum`; the sequence operator
names only `INTEGER`, the remaining tags of the closed enumeration are kept apart by a
number. -/
inductive flex_type_enum where
  | INTEGER
  | OTHER_TYPE (tag : Nat)
deriving DecidableEq

/-- Modelled from the spec: the operator kinds `planner_node_type`; the sequence operator
names only `SEQUENCE_NODE`, the remaining kinds of the enumeration are kept apart by a
number. -/
inductive planner_node_type where
  | SEQUENCE_NODE
  | OTHER_NODE (tag : Nat)
deriving DecidableEq

/-- Modelled from the spec: a plan node `planner_node`, made of an operator kind, a
mapping from parameter names to scalar values (an association list read through
`List.lookup`) and the ordered list of its input nodes. -/
inductive planner_node where
  | mk (operator_type : planner_node_type)
      (operator_parameters : List (String × flexible_type))
      (inputs : List planner_node)

/-- The operator kind of a plan node. -/
def planner_node.operator_type : planner_node → planner_node_type
  | .mk t _ _ => t

/-- The parameter mapping of a plan node. -/
def planner_node.operator_parameters : planner_node → List (String × flexible_type)
  | .mk _ p _ => p

/-- The input nodes of a plan node. -/
def planner_node.inputs : planner_node → List planner_node
  | .mk _ _ i => i

/-- Modelled from the spec: `planner_node::make_shared` called with a kind and a parameter
mapping only builds a node without inputs. -/
def planner_node.make_shared (operator_type : planner_node_type)
    (operator_parameters : List (String × flexible_type)) : planner_node :=
  .mk operator_type operator_parameters []

/-- The member `count` of the parameter mapping: `1` when the key is present, else `0`. -/
def map_count (m : List (String × flexible_type)) (key : String) : Nat :=
  if (m.lookup key).isSome then 1 else 0

/-- The member `operator[]` of the parameter mapping, read for its value: the value stored
under the key, or a default-constructed scalar when the key is absent. The default-
constructed scalar is declared outside the sources at hand and is an argument here. -/
def map_index (default_value : flexible_type) (m : List (String × flexible_type))
    (key : String) : flexible_type :=
  (m.lookup key).getD default_value

/-- Modelled from the spec: a column block `sframe_rows`, an ordered sequence of columns
each holding one scalar value per row. -/
structure sframe_rows where
  columns : List (List flexible_type)
deriving DecidableEq

/-- The number of columns of a block. -/
def sframe_rows.num_columns (rows : sframe_rows) : Nat :=
  rows.columns.length

/-- The row counts of the columns of a block. -/
def sframe_rows.column_lengths (rows : sframe_rows) : List Nat :=
  rows.columns.map List.length

/-- The number of rows of a block, read off its first column. -/
def sframe_rows.num_rows (rows : sframe_rows) : Nat :=
  match rows.columns with
  | [] => 0
  | c :: _ => c.length

/-- Modelled from the spec: `sframe_rows::resize`, which shapes a block to the given
number of columns and rows. The cells hold a filler until they are assigned. -/
def sframe_rows.resize (_rows : sframe_rows) (num_cols num_rows : size_t) : sframe_rows :=
  ⟨List.replicate num_cols (List.replicate num_rows ⟨0⟩)⟩

/-- Modelled from the spec: the execution context `query_context`, reduced to the
configured block size and the blocks handed downstream so far, oldest first. -/
structure query_context where
  block_size : size_t
  emitted : List sframe_rows
deriving DecidableEq

/-- Modelled from the spec: `get_output_buffer` allocates a fresh block, which the caller
shapes before emission. -/
def query_context.get_output_buffer (_context : query_context) : sframe_rows :=
  ⟨[]⟩

/-- Modelled from the spec: `emit` hands a block downstream. -/
def query_context.emit (context : query_context) (rows : sframe_rows) : query_context :=
  ⟨context.block_size, context.emitted ++ [rows]⟩

/-! ## The operator -/

/-- The state of `operator_impl<planner_node_type::SEQUENCE_NODE>`: the range from
`m_start` (inclusive) to `m_end` (exclusive). -/
structure op_sequence where
  m_start : flex_int
  m_end : flex_int
deriving DecidableEq

/-- The constructor `operator_impl(start, end)`; `ASSERT_LE(m_start, m_end)` aborts it. -/
def operator_impl (start end_ : flex_int) : Option op_sequence :=
  if start ≤ end_ then some ⟨start, end_⟩ else none

/-- The member `clone`, which constructs an operator from the stored range. -/
def clone (op : op_sequence) : Option op_sequence :=
  operator_impl op.m_start op.m_end

/-- The range-based `for` of `execute` over one column: every cell in turn receives `cur`,
and `cur` is incremented. Returns the column and the final `cur`. -/
def assign_column : List flexible_type → flex_int → List flexible_type × flex_int
  | [], cur => ([], cur)
  | _ :: rest, cur =>
    let r := assign_column rest (wrap_flex_int (cur + 1))
    (⟨cur⟩ :: r.1, r.2)

/-- The range-based `for` of `execute` applied to column `0` of the block `ret`. -/
def assign_first_column (ret : sframe_rows) (cur : flex_int) : sframe_rows × flex_int :=
  match ret.columns with
  | [] => (ret, cur)
  | c :: cs =>
    let r := assign_column c cur
    (⟨r.1 :: cs⟩, r.2)

/-- One pass through the body of the `while` loop of `execute`, from the cursor `cur`:
returns the cursor and the context after the pass. -/
def execute_body (m_end : flex_int) (cur : flex_int) (context : query_context) :
    flex_int × query_context :=
  let ret := context.get_output_buffer
  let len : size_t := min (to_size_t (wrap_flex_int (m_end - cur))) context.block_size
  let ret := ret.resize 1 len
  let r := assign_first_column ret cur
  (r.2, context.emit r.1)

/-- The `while (cur < m_end)` loop of `execute`, run for at most `fuel` passes through its
body; `none` when the loop has not ended by then. -/
def execute_loop (m_end : flex_int) : Nat → flex_int → query_context → Option query_context
  | 0, cur, context => if cur < m_end then none else some context
  | fuel + 1, cur, context =>
    if cur < m_end then
      let r := execute_body m_end cur context
      execute_loop m_end fuel r.1 r.2
    else some context

/-- The member `execute`: the loop started at `m_start`. -/
def execute (fuel : Nat) (op : op_sequence) (context : query_context) : Option query_context :=
  execute_loop op.m_end fuel op.m_start context

/-- The static member `make_planner_node(start, end)`; `ASSERT_LE(start, end)` aborts it. -/
def make_planner_node (start end_ : flex_int) : Option planner_node :=
  if start ≤ end_ then
    some (planner_node.make_shared planner_node_type.SEQUENCE_NODE
      [("start", ⟨start⟩), ("begin_index", ⟨0⟩), ("end_index", ⟨wrap_flex_int (end_ - start)⟩)])
  else none

/-- The static member `from_planner_node`. The assertions on the kind and on the presence
of the three parameters abort it, and so does the assertion of the constructor. The sums
`start + begin_index` and `start + end_index` are unsigned 64-bit sums, converted to
`flex_int` when handed to the constructor. -/
def from_planner_node (pnode : planner_node) : Option op_sequence :=
  if pnode.operator_type ≠ planner_node_type.SEQUENCE_NODE then none
  else if map_count pnode.operator_parameters "start" = 0 then none
  else if map_count pnode.operator_parameters "begin_index" = 0 then none
  else if map_count pnode.operator_parameters "end_index" = 0 then none
  else
    match pnode.operator_parameters.lookup "start",
      pnode.operator_parameters.lookup "begin_index",
      pnode.operator_parameters.lookup "end_index" with
    | some p_start, some p_begin, some p_end =>
      let start : flex_int := p_start.as_flex_int
      let begin_index : size_t := p_begin.as_size_t
      let end_index : size_t := p_end.as_size_t
      operator_impl (to_flex_int (to_size_t start + begin_index))
        (to_flex_int (to_size_t start + end_index))
    | _, _, _ => none

/-- The static member `infer_type`. -/
def infer_type (_pnode : planner_node) : List flex_type_enum :=
  [flex_type_enum.INTEGER]

/-- The static member `infer_length`; the assertion on the kind aborts it. The difference
of the two parameters is converted to `size_t` and returned as `int64_t`. The parameters
are read with `operator[]`, whose insertion of an absent key into the node is not
tracked. -/
def infer_length (default_value : flexible_type) (pnode : planner_node) : Option Int :=
  if pnode.operator_type ≠ planner_node_type.SEQUENCE_NODE then none
  else
    let count : size_t :=
      ((map_index default_value pnode.operator_parameters "end_index").sub
        (map_index default_value pnode.operator_parameters "begin_index")).as_size_t
    some (to_flex_int count)

/-- The text `operator<<` of an output stream writes for a `size_t`: its decimal digits. -/
def stream_size_t (n : size_t) : String :=
  Nat.repr n

/-- The text `operator<<` of an output stream writes for a `flex_int`: a minus sign when the
value is negative, then the decimal digits of its magnitude. -/
def stream_flex_int (x : flex_int) : String :=
  if x < 0 then "-" ++ Nat.repr x.natAbs else Nat.repr x.toNat

/-- The static member `repr`; the assertions on the kind and on the presence of the three
parameters abort it. `start` is streamed as a `flex_int`, `begin_index` and `end_index` as
`size_t`. The second argument of the source, a `pnode_tagger`, is not read by the source
and is left out. -/
def repr (pnode : planner_node) : Option String :=
  if pnode.operator_type ≠ planner_node_type.SEQUENCE_NODE then none
  else if map_count pnode.operator_parameters "start" = 0 then none
  else if map_count pnode.operator_parameters "begin_index" = 0 then none
  else if map_count pnode.operator_parameters "end_index" = 0 then none
  else
    match pnode.operator_parameters.lookup "start",
      pnode.operator_parameters.lookup "begin_index",
      pnode.operator_parameters.lookup "end_index" with
    | some p_start, some p_begin, some p_end =>
      let start : flex_int := p_start.as_flex_int
      let begin_index : size_t := p_begin.as_size_t
      let end_index : size_t := p_end.as_size_t
      some ("Sequence(" ++ stream_flex_int start ++ ")[" ++ stream_size_t begin_index
        ++ ":" ++ stream_size_t end_index ++ "]")
    | _, _, _ => none

/-- The loop of `execute` instrumented with the cursor: next to the context it returns the
values `cur` holds each time the condition `cur < m_end` is tested, first to last. The
context it returns is the one `execute_loop` returns. -/
def execute_loop_trace (m_end : flex_int) :
    Nat → flex_int → query_context → Option (List flex_int × query_context)
  | 0, cur, context => if cur < m_end then none else some ([cur], context)
  | fuel + 1, cur, context =>
    if cur < m_end then
      let r := execute_body m_end cur context
      (execute_loop_trace m_end fuel r.1 r.2).map (fun t => (cur :: t.1, t.2))
    else some ([cur], context)

/-- The member `execute` as a transition of the instance and the context together: the
body of the source assigns to the local `cur` and to the buffer only, the members
`m_start` and `m_end` are read, so the instance comes back as it went in. -/
def execute_instance (fuel : Nat) (op : op_sequence) (context : query_context) :
    Option (op_sequence × query_context) :=
  (execute_loop op.m_end fuel op.m_start context).map (fun c => (op, c))

/-! ## Vocabulary of the statements -/

/-- The integers `start, start + 1, …`, `n` of them. -/
def consecutive (start : Int) (n : Nat) : List Int :=
  (List.range n).map (fun (k : Nat) => start + (k : Int))

/-- The integers from `start` (inclusive) to `end_` (exclusive). -/
def int_range (start end_ : Int) : List Int :=
  consecutive start (end_ - start).toNat

/-- The values held by a block, column after column. -/
def block_values (rows : sframe_rows) : List Int :=
  rows.columns.flatten.map flexible_type.intval

/-- The values held by a list of blocks, block after block. -/
def emitted_values (blocks : List sframe_rows) : List Int :=
  (blocks.map block_values).flatten

/-- The total number of rows of a list of blocks. -/
def emitted_rows (blocks : List sframe_rows) : Nat :=
  (blocks.map sframe_rows.num_rows).sum

/-- A context with the given block size that has emitted nothing yet. -/
def fresh_context (block_size : size_t) : query_context :=
  ⟨block_size, []⟩

/-- The number of blocks a range of `n` values is cut into by a block size `b`: the
quotient of `n` by `b`, rounded up. -/
def block_count (n b : Nat) : Nat :=
  (n + b - 1) / b

/-- The block with the single column holding the given integers. -/
def single_column_block (vals : List Int) : sframe_rows :=
  ⟨[vals.map flexible_type.mk]⟩

/-- The partition of the range from `start` to `end_` into blocks of `b` values: block `k`
(counted from `0`) holds the integers from `start + k * b` up to, and without,
`min (start + (k + 1) * b) end_`. -/
def expected_blocks (start end_ : Int) (b : Nat) : List sframe_rows :=
  (List.range (block_count (end_ - start).toNat b)).map (fun (k : Nat) =>
    single_column_block
      (int_range (start + (k : Int) * (b : Int)) (min (start + ((k : Int) + 1) * (b : Int)) end_)))

/-- The decimal form of an integer: its digits, after a minus sign when it is negative. -/
def decimal (x : Int) : String :=
  if x < 0 then "-" ++ Nat.repr x.natAbs else Nat.repr x.toNat

/-! ## Machine arithmetic -/

theorem to_size_t_cast (x : Int) :
    ((to_size_t x : Nat) : Int) = x % 18446744073709551616 := by
  unfold to_size_t
  omega

theorem to_flex_int_range (n : Nat) : is_flex_int (to_flex_int n) := by
  unfold to_flex_int is_flex_int
  split <;> omega

theorem wrap_flex_int_of_range (x : Int) (h : is_flex_int x) : wrap_flex_int x = x := by
  unfold is_flex_int at h
  have hn := to_size_t_cast x
  unfold wrap_flex_int to_flex_int
  generalize to_size_t x = n at hn ⊢
  split <;> show @Eq Int _ _ <;> omega

theorem to_size_t_to_flex_int (n : Nat) :
    to_size_t (to_flex_int n) = n % 18446744073709551616 := by
  have h := to_size_t_cast (to_flex_int n)
  generalize to_size_t (to_flex_int n) = k at h ⊢
  unfold to_flex_int at h
  show @Eq Nat _ _
  split at h <;> omega

theorem to_size_t_wrap_sub (cur m_end : Int) (hc : is_flex_int cur) (he : is_flex_int m_end)
    (hlt : cur ≤ m_end) : to_size_t (wrap_flex_int (m_end - cur)) = (m_end - cur).toNat := by
  unfold is_flex_int at hc he
  have hn := to_size_t_cast (m_end - cur)
  unfold wrap_flex_int
  rw [to_size_t_to_flex_int]
  generalize to_size_t (m_end - cur) = n at hn ⊢
  show @Eq Nat _ _
  omega

theorem to_flex_int_add (s x : Int) (h : is_flex_int (s + x)) :
    to_flex_int (to_size_t s + to_size_t x) = s + x := by
  unfold is_flex_int at h
  have hs := to_size_t_cast s
  have hx := to_size_t_cast x
  unfold to_flex_int
  generalize to_size_t s = a at hs ⊢
  generalize to_size_t x = b at hx ⊢
  split <;> show @Eq Int _ _ <;> omega

/-! ## Consecutive integers -/

theorem consecutive_zero (s : Int) : consecutive s 0 = [] := rfl

theorem consecutive_succ (s : Int) (n : Nat) :
    consecutive s (n + 1) = s :: consecutive (s + 1) n := by
  unfold consecutive
  rw [List.range_succ_eq_map]
  simp only [List.map_cons, List.map_map, Nat.cast_zero, add_zero, List.cons.injEq, true_and]
  apply List.map_congr_left
  intro k _
  simp only [Function.comp, Nat.cast_succ]
  omega

theorem consecutive_length (s : Int) (n : Nat) : (consecutive s n).length = n := by
  simp [consecutive]

theorem consecutive_append (s : Int) (m n : Nat) :
    consecutive s (m + n) = consecutive s m ++ consecutive (s + m) n := by
  induction m generalizing s with
  | zero => simp [consecutive_zero]
  | succ m ih =>
    have e : m + 1 + n = (m + n) + 1 := by omega
    rw [e, consecutive_succ, consecutive_succ, ih (s + 1)]
    have e2 : s + 1 + (m : Int) = s + ((m + 1 : Nat) : Int) := by push_cast; omega
    rw [e2]
    rfl

/-! ## The loop of `execute` -/

theorem assign_column_spec (col : List flexible_type) (cur : Int)
    (hlo : -9223372036854775808 ≤ cur) (hhi : cur + col.length < 9223372036854775808) :
    assign_column col cur
      = ((consecutive cur col.length).map flexible_type.mk, cur + col.length) := by
  induction col generalizing cur with
  | nil => simp [assign_column, consecutive_zero]
  | cons c rest ih =>
    simp only [List.length_cons, Nat.cast_succ] at hhi
    have hw : wrap_flex_int (cur + 1) = cur + 1 :=
      wrap_flex_int_of_range _ ⟨by omega, by omega⟩
    simp only [assign_column, hw, List.length_cons, consecutive_succ, List.map_cons]
    rw [ih (cur + 1) (by omega) (by omega)]
    simp only [Nat.cast_succ, Prod.mk.injEq, true_and]
    show @Eq Int _ _
    omega

theorem execute_body_spec (m_end cur : Int) (context : query_context)
    (hc : is_flex_int cur) (he : is_flex_int m_end) (hlt : cur < m_end) :
    execute_body m_end cur context
      = (cur + ((min (m_end - cur).toNat context.block_size : Nat) : Int),
         context.emit ⟨[(consecutive cur (min (m_end - cur).toNat context.block_size)).map
           flexible_type.mk]⟩) := by
  have hlen := to_size_t_wrap_sub cur m_end hc he (le_of_lt hlt)
  unfold is_flex_int at hc he
  unfold execute_body
  simp only [hlen, sframe_rows.resize, assign_first_column, List.replicate]
  rw [assign_column_spec _ cur hc.1 (by simp only [List.length_replicate]; omega)]
  simp only [List.length_replicate]

theorem block_values_single (vals : List Int) :
    block_values ⟨[vals.map flexible_type.mk]⟩ = vals := by
  simp only [block_values, List.flatten_cons, List.flatten_nil, List.append_nil, List.map_map]
  exact List.map_id _

theorem execute_loop_spec (m_end : Int) (he : is_flex_int m_end) (b : Nat) (hb : 0 < b) :
    ∀ (fuel : Nat) (cur : Int) (already : List sframe_rows),
      is_flex_int cur → cur ≤ m_end → (m_end - cur).toNat ≤ fuel →
      ∃ blocks, execute_loop m_end fuel cur ⟨b, already⟩ = some ⟨b, already ++ blocks⟩ ∧
        emitted_values blocks = int_range cur m_end ∧
        (∀ blk ∈ blocks, ∃ col, blk.columns = [col] ∧ 0 < col.length ∧ col.length ≤ b) ∧
        emitted_rows blocks = (m_end - cur).toNat := by
  intro fuel
  induction fuel with
  | zero =>
    intro cur already _ hle hfuel
    have hnot : ¬ cur < m_end := by omega
    refine ⟨[], ?_, ?_, ?_, ?_⟩
    · simp [execute_loop, hnot]
    · have h0 : (m_end - cur).toNat = 0 := by omega
      simp [emitted_values, int_range, h0, consecutive_zero]
    · intro blk hblk
      cases hblk
    · have h0 : (m_end - cur).toNat = 0 := by omega
      simp [emitted_rows, h0]
  | succ fuel ih =>
    intro cur already hc hle hfuel
    by_cases hlt : cur < m_end
    · have hbody := execute_body_spec m_end cur ⟨b, already⟩ hc he hlt
      simp only [query_context.emit] at hbody
      generalize hlen : min (m_end - cur).toNat b = len at hbody
      have hlen_pos : 0 < len := by omega
      have hlen_le : len ≤ b := by omega
      have hlen_le2 : (len : Int) ≤ m_end - cur := by omega
      have hc2 : is_flex_int (cur + (len : Int)) := by
        unfold is_flex_int at hc he ⊢
        omega
      obtain ⟨rest, hrun, hvals, hshape, hrows⟩ :=
        ih (cur + (len : Int))
          (already ++ [⟨[(consecutive cur len).map flexible_type.mk]⟩]) hc2 (by omega) (by omega)
      refine ⟨⟨[(consecutive cur len).map flexible_type.mk]⟩ :: rest, ?_, ?_, ?_, ?_⟩
      · simp only [execute_loop, hlt, if_true, hbody]
        rw [hrun]
        simp
      · have hsplit : (m_end - cur).toNat = len + (m_end - (cur + (len : Int))).toNat := by omega
        simp only [emitted_values, List.map_cons, List.flatten_cons, block_values_single]
        simp only [emitted_values] at hvals
        rw [hvals]
        simp only [int_range]
        rw [hsplit, consecutive_append]
      · intro blk hblk
        rcases List.mem_cons.mp hblk with h | h
        · subst h
          exact ⟨_, rfl, by simpa [consecutive_length] using hlen_pos,
            by simpa [consecutive_length] using hlen_le⟩
        · exact hshape blk h
      · simp only [emitted_rows, List.map_cons, List.sum_cons]
        simp only [emitted_rows] at hrows
        rw [hrows]
        simp only [sframe_rows.num_rows, List.length_map, consecutive_length]
        omega
    · refine ⟨[], ?_, ?_, ?_, ?_⟩
      · simp [execute_loop, hlt]
      · have h0 : (m_end - cur).toNat = 0 := by omega
        simp [emitted_values, int_range, h0, consecutive_zero]
      · intro blk hblk
        cases hblk
      · have h0 : (m_end - cur).toNat = 0 := by omega
        simp [emitted_rows, h0]

/-! ## Reading a plan node -/

theorem from_planner_node_eq (pnode : planner_node) (p_start p_begin p_end : flexible_type)
    (hkind : pnode.operator_type = planner_node_type.SEQUENCE_NODE)
    (h1 : pnode.operator_parameters.lookup "start" = some p_start)
    (h2 : pnode.operator_parameters.lookup "begin_index" = some p_begin)
    (h3 : pnode.operator_parameters.lookup "end_index" = some p_end) :
    from_planner_node pnode
      = operator_impl (to_flex_int (to_size_t p_start.intval + to_size_t p_begin.intval))
          (to_flex_int (to_size_t p_start.intval + to_size_t p_end.intval)) := by
  simp [from_planner_node, map_count, hkind, h1, h2, h3, flexible_type.as_flex_int,
    flexible_type.as_size_t]

theorem from_planner_node_some (pnode : planner_node) (op : op_sequence)
    (h : from_planner_node pnode = some op) :
    pnode.operator_type = planner_node_type.SEQUENCE_NODE ∧
    ∃ p_start p_begin p_end,
      pnode.operator_parameters.lookup "start" = some p_start ∧
      pnode.operator_parameters.lookup "begin_index" = some p_begin ∧
      pnode.operator_parameters.lookup "end_index" = some p_end := by
  unfold from_planner_node at h
  by_cases hkind : pnode.operator_type = planner_node_type.SEQUENCE_NODE
  · refine ⟨hkind, ?_⟩
    cases h1 : pnode.operator_parameters.lookup "start" with
    | none => simp [map_count, hkind, h1] at h
    | some p_start =>
      cases h2 : pnode.operator_parameters.lookup "begin_index" with
      | none => simp [map_count, hkind, h1, h2] at h
      | some p_begin =>
        cases h3 : pnode.operator_parameters.lookup "end_index" with
        | none => simp [map_count, hkind, h1, h2, h3] at h
        | some p_end => exact ⟨p_start, p_begin, p_end, rfl, rfl, rfl⟩
  · simp [hkind] at h

theorem operator_impl_some (start end_ : Int) (op : op_sequence)
    (h : operator_impl start end_ = some op) :
    start ≤ end_ ∧ op.m_start = start ∧ op.m_end = end_ := by
  unfold operator_impl at h
  split at h
  · cases h
    exact ⟨by assumption, rfl, rfl⟩
  · cases h

theorem execute_spec (op : op_sequence) (b : Nat) (hs : is_flex_int op.m_start)
    (he : is_flex_int op.m_end) (hle : op.m_start ≤ op.m_end) (hb : 0 < b) (fuel : Nat)
    (hfuel : (op.m_end - op.m_start).toNat ≤ fuel) :
    ∃ blocks, execute fuel op (fresh_context b) = some ⟨b, blocks⟩ ∧
      emitted_values blocks = int_range op.m_start op.m_end ∧
      (∀ blk ∈ blocks, ∃ col, blk.columns = [col] ∧ 0 < col.length ∧ col.length ≤ b) ∧
      emitted_rows blocks = (op.m_end - op.m_start).toNat := by
  obtain ⟨blocks, hrun, hrest⟩ :=
    execute_loop_spec op.m_end he b hb fuel op.m_start [] hs hle hfuel
  exact ⟨blocks, by simpa [execute, fresh_context] using hrun, hrest⟩

/-! ## Arithmetic of the plan-node parameters -/

theorem to_size_t_spec (x : Int) :
    ∃ k : Int, ((to_size_t x : Nat) : Int) = x + 18446744073709551616 * k ∧
      to_size_t x < 18446744073709551616 := by
  have h := to_size_t_cast x
  refine ⟨-(x / 18446744073709551616), by omega, ?_⟩
  unfold to_size_t
  omega

theorem to_flex_int_spec (n : Nat) :
    ∃ k : Int, to_flex_int n = (n : Int) + 18446744073709551616 * k ∧
      is_flex_int (to_flex_int n) := by
  refine ⟨?_, ?_, to_flex_int_range n⟩
  · exact if n % 18446744073709551616 < 9223372036854775808
      then -((n : Int) / 18446744073709551616) else -((n : Int) / 18446744073709551616) - 1
  · unfold to_flex_int
    split <;> show @Eq Int _ _ <;> omega

theorem to_flex_int_made_end (start end_ : Int) (he : is_flex_int end_) :
    to_flex_int (to_size_t start + to_size_t (wrap_flex_int (end_ - start))) = end_ := by
  unfold wrap_flex_int
  obtain ⟨k1, h1, b1⟩ := to_size_t_spec start
  obtain ⟨k2, h2, b2⟩ := to_size_t_spec (end_ - start)
  obtain ⟨k3, h3, b3⟩ := to_flex_int_spec (to_size_t (end_ - start))
  obtain ⟨k4, h4, b4⟩ := to_size_t_spec (to_flex_int (to_size_t (end_ - start)))
  obtain ⟨k5, h5, b5⟩ := to_flex_int_spec
    (to_size_t start + to_size_t (to_flex_int (to_size_t (end_ - start))))
  unfold is_flex_int at he b3 b5
  generalize to_flex_int
    (to_size_t start + to_size_t (to_flex_int (to_size_t (end_ - start)))) = r at h5 b5 ⊢
  generalize to_size_t (to_flex_int (to_size_t (end_ - start))) = u at h4 b4 h5
  generalize to_flex_int (to_size_t (end_ - start)) = v at h3 b3 h4
  generalize to_size_t (end_ - start) = d at h2 b2 h3
  generalize to_size_t start = a at h1 b1 h5
  show @Eq Int _ _
  push_cast at h5
  omega

theorem infer_length_arith (s bi ei : Int)
    (hle : to_flex_int (to_size_t s + to_size_t bi) ≤ to_flex_int (to_size_t s + to_size_t ei))
    (hsmall : to_flex_int (to_size_t s + to_size_t ei)
      - to_flex_int (to_size_t s + to_size_t bi) < 9223372036854775808) :
    to_flex_int (to_size_t (wrap_flex_int (ei - bi)))
      = to_flex_int (to_size_t s + to_size_t ei) - to_flex_int (to_size_t s + to_size_t bi) := by
  unfold wrap_flex_int
  obtain ⟨k1, h1, b1⟩ := to_size_t_spec s
  obtain ⟨k2, h2, b2⟩ := to_size_t_spec bi
  obtain ⟨k3, h3, b3⟩ := to_size_t_spec ei
  obtain ⟨k4, h4, b4⟩ := to_flex_int_spec (to_size_t s + to_size_t bi)
  obtain ⟨k5, h5, b5⟩ := to_flex_int_spec (to_size_t s + to_size_t ei)
  obtain ⟨k6, h6, b6⟩ := to_size_t_spec (ei - bi)
  obtain ⟨k7, h7, b7⟩ := to_flex_int_spec (to_size_t (ei - bi))
  obtain ⟨k8, h8, b8⟩ := to_size_t_spec (to_flex_int (to_size_t (ei - bi)))
  obtain ⟨k9, h9, b9⟩ := to_flex_int_spec (to_size_t (to_flex_int (to_size_t (ei - bi))))
  unfold is_flex_int at b4 b5 b7 b9
  generalize to_flex_int (to_size_t (to_flex_int (to_size_t (ei - bi)))) = r at h9 b9 ⊢
  generalize to_size_t (to_flex_int (to_size_t (ei - bi))) = u at h8 b8 h9
  generalize to_flex_int (to_size_t (ei - bi)) = v at h7 b7 h8
  generalize to_size_t (ei - bi) = d at h6 b6 h7
  generalize to_flex_int (to_size_t s + to_size_t ei) = B at h5 b5 hle hsmall ⊢
  generalize to_flex_int (to_size_t s + to_size_t bi) = A at h4 b4 hle hsmall ⊢
  generalize to_size_t s = a at h1 b1 h4 h5
  generalize to_size_t bi = x at h2 b2 h4
  generalize to_size_t ei = y at h3 b3 h5
  show @Eq Int _ _
  push_cast at h4 h5
  omega

/-! ## Degenerate block size -/

theorem execute_body_zero_block_size (m_end cur : Int) (already : List sframe_rows) :
    execute_body m_end cur ⟨0, already⟩ = (cur, ⟨0, already ++ [⟨[[]]⟩]⟩) := by
  simp [execute_body, sframe_rows.resize, assign_first_column, assign_column,
    query_context.emit, query_context.get_output_buffer]

/-! ## Rendering a plan node -/

theorem repr_eq (pnode : planner_node) (p_start p_begin p_end : flexible_type)
    (hkind : pnode.operator_type = planner_node_type.SEQUENCE_NODE)
    (h1 : pnode.operator_parameters.lookup "start" = some p_start)
    (h2 : pnode.operator_parameters.lookup "begin_index" = some p_begin)
    (h3 : pnode.operator_parameters.lookup "end_index" = some p_end) :
    repr pnode
      = some ("Sequence(" ++ stream_flex_int p_start.intval ++ ")["
          ++ stream_size_t (to_size_t p_begin.intval) ++ ":"
          ++ stream_size_t (to_size_t p_end.intval) ++ "]") := by
  simp [repr, map_count, hkind, h1, h2, h3, flexible_type.as_flex_int,
    flexible_type.as_size_t]

theorem repr_some (pnode : planner_node) (text : String) (h : repr pnode = some text) :
    pnode.operator_type = planner_node_type.SEQUENCE_NODE ∧
    ∃ p_start p_begin p_end,
      pnode.operator_parameters.lookup "start" = some p_start ∧
      pnode.operator_parameters.lookup "begin_index" = some p_begin ∧
      pnode.operator_parameters.lookup "end_index" = some p_end := by
  unfold repr at h
  by_cases hkind : pnode.operator_type = planner_node_type.SEQUENCE_NODE
  · refine ⟨hkind, ?_⟩
    cases h1 : pnode.operator_parameters.lookup "start" with
    | none => simp [map_count, hkind, h1] at h
    | some p_start =>
      cases h2 : pnode.operator_parameters.lookup "begin_index" with
      | none => simp [map_count, hkind, h1, h2] at h
      | some p_begin =>
        cases h3 : pnode.operator_parameters.lookup "end_index" with
        | none => simp [map_count, hkind, h1, h2, h3] at h
        | some p_end => exact ⟨p_start, p_begin, p_end, rfl, rfl, rfl⟩
  · simp [hkind] at h

theorem stream_size_t_eq_decimal (n : Nat) : stream_size_t n = decimal (n : Int) := by
  have h : ¬ ((n : Int) < 0) := by omega
  simp [stream_size_t, decimal, h]

theorem to_size_t_of_nonneg (x : Int) (h0 : 0 ≤ x) (hx : is_flex_int x) :
    ((to_size_t x : Nat) : Int) = x := by
  unfold is_flex_int at hx
  have h := to_size_t_cast x
  omega

theorem infer_length_eq (default_value : flexible_type) (pnode : planner_node)
    (p_begin p_end : flexible_type)
    (hkind : pnode.operator_type = planner_node_type.SEQUENCE_NODE)
    (h2 : pnode.operator_parameters.lookup "begin_index" = some p_begin)
    (h3 : pnode.operator_parameters.lookup "end_index" = some p_end) :
    infer_length default_value pnode
      = some (to_flex_int (to_size_t (wrap_flex_int (p_end.intval - p_begin.intval)))) := by
  simp [infer_length, hkind, map_index, h2, h3, flexible_type.sub, flexible_type.as_size_t]

/-! ## Independence of the blocks already emitted -/

theorem execute_body_frame (m_end cur : Int) (b : Nat) (already : List sframe_rows) :
    execute_body m_end cur ⟨b, already⟩
      = ((execute_body m_end cur ⟨b, []⟩).1,
          ⟨b, already ++ (execute_body m_end cur ⟨b, []⟩).2.emitted⟩) := by
  simp [execute_body, query_context.emit, query_context.get_output_buffer]

theorem execute_body_block_size (m_end cur : Int) (b : Nat) (already : List sframe_rows) :
    (execute_body m_end cur ⟨b, already⟩).2.block_size = b := by
  simp [execute_body, query_context.emit]

theorem execute_loop_frame (m_end : Int) (b : Nat) :
    ∀ (fuel : Nat) (cur : Int) (already : List sframe_rows),
      execute_loop m_end fuel cur ⟨b, already⟩
        = (execute_loop m_end fuel cur ⟨b, []⟩).map
            (fun c => ⟨b, already ++ c.emitted⟩) := by
  intro fuel
  induction fuel with
  | zero =>
    intro cur already
    by_cases h : cur < m_end <;> simp [execute_loop, h]
  | succ fuel ih =>
    intro cur already
    by_cases h : cur < m_end
    · simp only [execute_loop, h, if_true]
      rw [execute_body_frame m_end cur b already]
      generalize (execute_body m_end cur ⟨b, []⟩).1 = cur2
      have hb := execute_body_block_size m_end cur b []
      generalize execute_body m_end cur ⟨b, []⟩ = r at hb ⊢
      obtain ⟨c2, ctx2⟩ := r
      obtain ⟨b2, blk⟩ := ctx2
      simp only at hb
      subst hb
      simp only
      rw [ih cur2 (already ++ blk)]
      rw [ih cur2 blk, Option.map_map]
      congr 1
      funext c
      simp only [Function.comp, List.append_assoc]
    · simp [execute_loop, h]

theorem execute_instance_rerun (fuel : Nat) (op op1 : op_sequence) (b : Nat)
    (after : query_context)
    (hrun : execute_instance fuel op (fresh_context b) = some (op1, after)) :
    op1 = op ∧ after.block_size = b ∧
    execute_instance fuel op1 (fresh_context b) = some (op1, after) ∧
    execute_instance fuel op1 after = some (op1, ⟨b, after.emitted ++ after.emitted⟩) := by
  unfold execute_instance at hrun
  cases hloop : execute_loop op.m_end fuel op.m_start (fresh_context b) with
  | none => simp [hloop] at hrun
  | some c =>
    simp only [hloop, Option.map_some', Option.some.injEq, Prod.mk.injEq] at hrun
    obtain ⟨h1, h2⟩ := hrun
    subst h1 h2
    have hframe := execute_loop_frame op.m_end b fuel op.m_start c.emitted
    have hloop2 : execute_loop op.m_end fuel op.m_start ⟨b, []⟩ = some c := hloop
    rw [hloop2] at hframe
    simp only [Option.map_some'] at hframe
    have hb : c.block_size = b := by
      have h0 := execute_loop_frame op.m_end b fuel op.m_start []
      rw [hloop2] at h0
      simp only [Option.map_some', List.nil_append, Option.some.injEq] at h0
      rw [h0]
    have hc : c = ⟨b, c.emitted⟩ := by
      cases c
      simp only at hb
      subst hb
      rfl
    refine ⟨rfl, hb, by simp [execute_instance, hloop], ?_⟩
    unfold execute_instance
    rw [hc]
    simp only [hframe, Option.map_some']

/-! ## The cursor of the loop -/

theorem execute_loop_trace_context (m_end : Int) :
    ∀ (fuel : Nat) (cur : Int) (context : query_context),
      (execute_loop_trace m_end fuel cur context).map Prod.snd
        = execute_loop m_end fuel cur context := by
  intro fuel
  induction fuel with
  | zero =>
    intro cur context
    by_cases h : cur < m_end <;> simp [execute_loop_trace, execute_loop, h]
  | succ fuel ih =>
    intro cur context
    by_cases h : cur < m_end
    · simp only [execute_loop_trace, execute_loop, h, if_true, Option.map_map]
      rw [← ih]
      rfl
    · simp [execute_loop_trace, execute_loop, h]

theorem execute_loop_trace_spec (m_end : Int) (he : is_flex_int m_end) (b : Nat)
    (hb : 0 < b) :
    ∀ (fuel : Nat) (cur : Int) (already : List sframe_rows),
      is_flex_int cur → cur ≤ m_end → (m_end - cur).toNat ≤ fuel →
      ∃ rest context,
        execute_loop_trace m_end fuel cur ⟨b, already⟩ = some (cur :: rest, context) ∧
        (∀ c ∈ cur :: rest, cur ≤ c ∧ c ≤ m_end) ∧
        List.Chain' (fun x y : Int => x < y) (cur :: rest) ∧
        (cur :: rest).getLast? = some m_end ∧
        rest.length ≤ (m_end - cur).toNat := by
  intro fuel
  induction fuel with
  | zero =>
    intro cur already _ hle hfuel
    have hnot : ¬ cur < m_end := by omega
    have heq : cur = m_end := by omega
    refine ⟨[], ⟨b, already⟩, by simp [execute_loop_trace, hnot], ?_, by simp, by simp [heq],
      by simp⟩
    intro c hc
    simp only [List.mem_singleton] at hc
    subst hc
    exact ⟨le_refl _, hle⟩
  | succ fuel ih =>
    intro cur already hc hle hfuel
    by_cases hlt : cur < m_end
    · have hbody := execute_body_spec m_end cur ⟨b, already⟩ hc he hlt
      simp only [query_context.emit] at hbody
      generalize hlen : min (m_end - cur).toNat b = len at hbody
      have hlen_pos : 0 < len := by omega
      have hlen_le2 : (len : Int) ≤ m_end - cur := by omega
      have hc2 : is_flex_int (cur + (len : Int)) := by
        unfold is_flex_int at hc he ⊢
        omega
      obtain ⟨rest, context, hrun, hbound, hchain, hlast, hcount⟩ :=
        ih (cur + (len : Int))
          (already ++ [⟨[(consecutive cur len).map flexible_type.mk]⟩]) hc2 (by omega) (by omega)
      refine ⟨(cur + (len : Int)) :: rest, context, ?_, ?_, ?_, ?_, ?_⟩
      · simp only [execute_loop_trace, hlt, if_true, hbody, hrun, Option.map_some']
      · intro c hmem
        rcases List.mem_cons.mp hmem with h | h
        · subst h
          exact ⟨le_refl _, hle⟩
        · obtain ⟨h1, h2⟩ := hbound c h
          exact ⟨by omega, h2⟩
      · exact List.Chain'.cons (by omega) hchain
      · rw [List.getLast?_cons_cons]
        exact hlast
      · simp only [List.length_cons]
        omega
    · have heq : cur = m_end := by omega
      refine ⟨[], ⟨b, already⟩, by simp [execute_loop_trace, hlt], ?_, by simp, by simp [heq],
        by simp⟩
      intro c hmem
      simp only [List.mem_singleton] at hmem
      subst hmem
      exact ⟨le_refl _, hle⟩

/-! ## The partition into blocks -/

theorem lt_block_count_iff (n b k : Nat) (hb : 0 < b) : k < block_count n b ↔ k * b < n := by
  unfold block_count
  rw [Nat.lt_iff_add_one_le, Nat.le_div_iff_mul_le hb, Nat.add_mul]
  omega

theorem block_count_zero (b : Nat) (hb : 0 < b) : block_count 0 b = 0 := by
  unfold block_count
  exact Nat.div_eq_of_lt (by omega)

theorem block_count_step (n b : Nat) (hb : 0 < b) (hn : 0 < n) :
    block_count n b = block_count (n - min n b) b + 1 := by
  unfold block_count
  by_cases h : n ≤ b
  · have e1 : n - min n b + b - 1 = b - 1 := by omega
    have e2 : n + b - 1 = (n - 1) + b := by omega
    rw [e1, e2, Nat.add_div_right _ hb, Nat.div_eq_of_lt (by omega : b - 1 < b),
      Nat.div_eq_of_lt (by omega : n - 1 < b)]
  · have e1 : n - min n b + b - 1 = n - 1 := by omega
    have e2 : n + b - 1 = (n - 1) + b := by omega
    rw [e1, e2, Nat.add_div_right _ hb]

theorem expected_blocks_done (cur m_end : Int) (b : Nat) (hb : 0 < b) (h : ¬ cur < m_end) :
    expected_blocks cur m_end b = [] := by
  have h0 : (m_end - cur).toNat = 0 := by omega
  simp [expected_blocks, h0, block_count_zero b hb]

theorem expected_blocks_step (cur m_end : Int) (b : Nat) (hb : 0 < b) (hlt : cur < m_end) :
    expected_blocks cur m_end b
      = single_column_block (consecutive cur (min (m_end - cur).toNat b))
        :: expected_blocks (cur + ((min (m_end - cur).toNat b : Nat) : Int)) m_end b := by
  have hn : 0 < (m_end - cur).toNat := by omega
  have hrest : (m_end - (cur + ((min (m_end - cur).toNat b : Nat) : Int))).toNat
      = (m_end - cur).toNat - min (m_end - cur).toNat b := by omega
  unfold expected_blocks
  rw [hrest, block_count_step _ b hb hn, List.range_succ_eq_map]
  simp only [List.map_cons, List.map_map]
  congr 1
  · congr 1
    have e : (min (cur + ((0 : Nat) + 1 : Int) * (b : Int)) m_end - (cur + ((0 : Nat) : Int) * (b : Int))).toNat
        = min (m_end - cur).toNat b := by
      simp only [Nat.cast_zero, zero_add, one_mul, zero_mul, add_zero]
      omega
    simp only [int_range, e]
    simp
  · apply List.map_congr_left
    intro k hk
    have hk2 : k < block_count ((m_end - cur).toNat - min (m_end - cur).toNat b) b :=
      List.mem_range.mp hk
    have hfull : min (m_end - cur).toNat b = b := by
      by_contra hne
      have hsmall : (m_end - cur).toNat - min (m_end - cur).toNat b = 0 := by omega
      rw [hsmall, block_count_zero b hb] at hk2
      omega
    simp only [Function.comp, hfull, Nat.cast_succ]
    have e1 : cur + ((k : Int) + 1) * (b : Int) = cur + (b : Int) + (k : Int) * (b : Int) := by
      ring
    have e2 : cur + ((k : Int) + 1 + 1) * (b : Int)
        = cur + (b : Int) + ((k : Int) + 1) * (b : Int) := by
      ring
    rw [e1, e2]

theorem execute_loop_partition (m_end : Int) (he : is_flex_int m_end) (b : Nat) (hb : 0 < b) :
    ∀ (fuel : Nat) (cur : Int) (already : List sframe_rows),
      is_flex_int cur → cur ≤ m_end → (m_end - cur).toNat ≤ fuel →
      execute_loop m_end fuel cur ⟨b, already⟩
        = some ⟨b, already ++ expected_blocks cur m_end b⟩ := by
  intro fuel
  induction fuel with
  | zero =>
    intro cur already _ hle hfuel
    have hnot : ¬ cur < m_end := by omega
    simp [execute_loop, hnot, expected_blocks_done cur m_end b hb hnot]
  | succ fuel ih =>
    intro cur already hc hle hfuel
    by_cases hlt : cur < m_end
    · have hbody := execute_body_spec m_end cur ⟨b, already⟩ hc he hlt
      simp only [query_context.emit] at hbody
      rw [expected_blocks_step cur m_end b hb hlt]
      generalize hlen : min (m_end - cur).toNat b = len at hbody
      have hlen_pos : 0 < len := by omega
      have hlen_le2 : (len : Int) ≤ m_end - cur := by omega
      have hc2 : is_flex_int (cur + (len : Int)) := by
        unfold is_flex_int at hc he ⊢
        omega
      simp only [execute_loop, hlt, if_true, hbody]
      rw [ih (cur + (len : Int)) _ hc2 (by omega) (by omega)]
      simp [single_column_block]
    · simp [execute_loop, hlt, expected_blocks_done cur m_end b hb hlt]

theorem expected_blocks_length (start end_ : Int) (b : Nat) :
    (expected_blocks start end_ b).length = block_count (end_ - start).toNat b := by
  simp [expected_blocks]

theorem expected_blocks_get_at (start end_ : Int) (b k : Nat) (blk : sframe_rows)
    (h : (expected_blocks start end_ b)[k]? = some blk) :
    k < block_count (end_ - start).toNat b ∧
    blk = single_column_block
      (int_range (start + (k : Int) * (b : Int)) (min (start + ((k : Int) + 1) * (b : Int)) end_)) := by
  unfold expected_blocks at h
  rw [List.getElem?_map] at h
  cases hk : (List.range (block_count (end_ - start).toNat b))[k]? with
  | none => simp [hk] at h
  | some j =>
    rw [hk] at h
    simp only [Option.map_some', Option.some.injEq] at h
    obtain ⟨hlt, hj⟩ := List.getElem?_eq_some_iff.mp hk
    simp only [List.length_range] at hlt
    simp only [List.getElem_range] at hj
    subst hj
    exact ⟨hlt, h.symm⟩

/-! ## The claims -/

/-- C1: for all 64-bit integers `start ≤ end_` and every block size `b > 0`, the
constructor succeeds and `execute`, given fuel for `end_ - start` passes or more, returns
with emitted blocks whose values, in emission order, are `start, start + 1, …, end_ - 1`. -/
theorem C1_execute_emits_range (start end_ : Int) (b : Nat) (hs : is_flex_int start)
    (he : is_flex_int end_) (hle : start ≤ end_) (hb : 0 < b) :
    ∃ op, operator_impl start end_ = some op ∧
      ∀ fuel, (end_ - start).toNat ≤ fuel →
        ∃ blocks, execute fuel op (fresh_context b) = some ⟨b, blocks⟩ ∧
          emitted_values blocks = int_range start end_ := by
  refine ⟨⟨start, end_⟩, by simp [operator_impl, hle], ?_⟩
  intro fuel hfuel
  obtain ⟨blocks, hrun, hvals, _, _⟩ := execute_spec ⟨start, end_⟩ b hs he hle hb fuel hfuel
  exact ⟨blocks, hrun, hvals⟩

/-- Witness of C1 at `start = 0`, `end_ = 10`, `b = 4`, where the expected values are
`0, 1, …, 9`. -/
theorem C1_execute_emits_range_witness :
    is_flex_int 0 ∧ is_flex_int 10 ∧ (0 : Int) ≤ 10 ∧ 0 < 4 ∧
    (∃ op, operator_impl 0 10 = some op ∧
      ∀ fuel, ((10 : Int) - 0).toNat ≤ fuel →
        ∃ blocks, execute fuel op (fresh_context 4) = some ⟨4, blocks⟩ ∧
          emitted_values blocks = int_range 0 10) ∧
    int_range 0 10 = [0, 1, 2, 3, 4, 5, 6, 7, 8, 9] :=
  ⟨by decide, by decide, by decide, by decide,
    C1_execute_emits_range 0 10 4 (by decide) (by decide) (by decide) (by decide),
    by decide⟩

/-- C2: every block emitted by `execute` on a constructed operator, for a block size
`b > 0`, has exactly one column, and that column holds at most `b` rows. -/
theorem C2_blocks_one_column_bounded (start end_ : Int) (b : Nat) (op : op_sequence)
    (hs : is_flex_int start) (he : is_flex_int end_)
    (hop : operator_impl start end_ = some op) (hb : 0 < b) :
    ∀ fuel, (op.m_end - op.m_start).toNat ≤ fuel →
      ∃ blocks, execute fuel op (fresh_context b) = some ⟨b, blocks⟩ ∧
        ∀ blk ∈ blocks, ∃ col, blk.columns = [col] ∧ col.length ≤ b := by
  obtain ⟨hle, h1, h2⟩ := operator_impl_some start end_ op hop
  intro fuel hfuel
  obtain ⟨blocks, hrun, _, hshape, _⟩ :=
    execute_spec op b (h1 ▸ hs) (h2 ▸ he) (by rw [h1, h2]; exact hle) hb fuel hfuel
  refine ⟨blocks, hrun, ?_⟩
  intro blk hblk
  obtain ⟨col, hcol, _, hlen⟩ := hshape blk hblk
  exact ⟨col, hcol, hlen⟩

/-- Witness of C2 at the operator built from `(0, 10)` with `b = 4`. -/
theorem C2_blocks_one_column_bounded_witness :
    is_flex_int 0 ∧ is_flex_int 10 ∧ operator_impl 0 10 = some ⟨0, 10⟩ ∧ 0 < 4 ∧
    ∀ fuel, ((10 : Int) - 0).toNat ≤ fuel →
      ∃ blocks, execute fuel ⟨0, 10⟩ (fresh_context 4) = some ⟨4, blocks⟩ ∧
        ∀ blk ∈ blocks, ∃ col, blk.columns = [col] ∧ col.length ≤ 4 :=
  ⟨by decide, by decide, by decide, by decide,
    C2_blocks_one_column_bounded 0 10 4 ⟨0, 10⟩ (by decide) (by decide) (by decide)
      (by decide)⟩

/-- Counterexample to C3 as stated: the node made from `(-1, 2^63 - 1)` yields an instance
that emits `2^63` rows, while `infer_length` returns `-2^63`. -/
theorem C3_rows_exceed_infer_length :
    make_planner_node (-1) 9223372036854775807
      = some (planner_node.mk planner_node_type.SEQUENCE_NODE
          [("start", ⟨-1⟩), ("begin_index", ⟨0⟩), ("end_index", ⟨-9223372036854775808⟩)] []) ∧
    from_planner_node (planner_node.mk planner_node_type.SEQUENCE_NODE
        [("start", ⟨-1⟩), ("begin_index", ⟨0⟩), ("end_index", ⟨-9223372036854775808⟩)] [])
      = some ⟨-1, 9223372036854775807⟩ ∧
    infer_length ⟨0⟩ (planner_node.mk planner_node_type.SEQUENCE_NODE
        [("start", ⟨-1⟩), ("begin_index", ⟨0⟩), ("end_index", ⟨-9223372036854775808⟩)] [])
      = some (-9223372036854775808) ∧
    ∃ blocks, execute 9223372036854775808 ⟨-1, 9223372036854775807⟩ (fresh_context 1)
        = some ⟨1, blocks⟩ ∧
      emitted_rows blocks = 9223372036854775808 := by
  refine ⟨rfl, by decide, by decide, ?_⟩
  obtain ⟨blocks, hrun, _, _, hrows⟩ :=
    execute_spec ⟨-1, 9223372036854775807⟩ 1 (by decide) (by decide) (by decide) (by decide)
      9223372036854775808 (by decide)
  exact ⟨blocks, hrun, by rw [hrows]; decide⟩

/-- C3 (amended): for every plan node on which `from_planner_node` succeeds with an
instance whose range holds fewer than `2^63` values, and every block size `b > 0`, the
row counts of the blocks emitted by `execute` sum to `infer_length` of the node; when the
node was made by `make_planner_node start end_`, both are `end_ - start`. -/
theorem C3_rows_match_infer_length (default_value : flexible_type) (pnode : planner_node)
    (op : op_sequence) (b : Nat) (fuel : Nat)
    (hfrom : from_planner_node pnode = some op)
    (hsmall : op.m_end - op.m_start < 9223372036854775808) (hb : 0 < b)
    (hfuel : (op.m_end - op.m_start).toNat ≤ fuel) :
    ∃ blocks, execute fuel op (fresh_context b) = some ⟨b, blocks⟩ ∧
      infer_length default_value pnode = some ((emitted_rows blocks : Nat) : Int) ∧
      ∀ start end_ : Int, is_flex_int start → is_flex_int end_ →
        make_planner_node start end_ = some pnode →
        ((emitted_rows blocks : Nat) : Int) = end_ - start := by
  obtain ⟨hkind, ps, pb, pe, h1, h2, h3⟩ := from_planner_node_some pnode op hfrom
  rw [from_planner_node_eq pnode ps pb pe hkind h1 h2 h3] at hfrom
  obtain ⟨hle, hms, hme⟩ := operator_impl_some _ _ op hfrom
  have hle2 : op.m_start ≤ op.m_end := by rw [hms, hme]; exact hle
  obtain ⟨blocks, hrun, _, _, hrows⟩ :=
    execute_spec op b (hms ▸ to_flex_int_range _) (hme ▸ to_flex_int_range _) hle2 hb fuel hfuel
  have hcast : ((emitted_rows blocks : Nat) : Int) = op.m_end - op.m_start := by
    rw [hrows]
    exact Int.toNat_of_nonneg (sub_nonneg.mpr hle2)
  refine ⟨blocks, hrun, ?_, ?_⟩
  · have harith := infer_length_arith ps.intval pb.intval pe.intval hle
      (by rw [← hms, ← hme]; exact hsmall)
    rw [hcast, hms, hme, ← harith]
    simp [infer_length, hkind, map_index, h2, h3, flexible_type.sub, flexible_type.as_size_t]
  · intro start end_ _ he hmade
    unfold make_planner_node at hmade
    split at hmade
    · cases hmade
      have e1 : ps = ⟨start⟩ := by
        have : some (flexible_type.mk start) = some ps := h1
        exact (Option.some.inj this).symm
      have e2 : pb = ⟨0⟩ := by
        have : some (flexible_type.mk 0) = some pb := h2
        exact (Option.some.inj this).symm
      have e3 : pe = ⟨wrap_flex_int (end_ - start)⟩ := by
        have : some (flexible_type.mk (wrap_flex_int (end_ - start))) = some pe := h3
        exact (Option.some.inj this).symm
      subst e1 e2 e3
      have hB := to_flex_int_made_end start end_ he
      have hA : to_flex_int (to_size_t start + to_size_t 0) = start := by
        have := to_flex_int_add start 0 (by simpa using ‹is_flex_int start›)
        simpa using this
      rw [hcast, hms, hme]
      simp only [hA, hB]
    · cases hmade

/-- Witness of C3 (amended) at the node made from `(0, 10)`, with `b = 4`. -/
theorem C3_rows_match_infer_length_witness :
    from_planner_node (planner_node.mk planner_node_type.SEQUENCE_NODE
        [("start", ⟨0⟩), ("begin_index", ⟨0⟩), ("end_index", ⟨10⟩)] []) = some ⟨0, 10⟩ ∧
    ((10 : Int) - 0 < 9223372036854775808) ∧ 0 < 4 ∧ ((10 : Int) - 0).toNat ≤ 10 ∧
    make_planner_node 0 10 = some (planner_node.mk planner_node_type.SEQUENCE_NODE
        [("start", ⟨0⟩), ("begin_index", ⟨0⟩), ("end_index", ⟨10⟩)] []) ∧
    ∃ blocks, execute 10 ⟨0, 10⟩ (fresh_context 4) = some ⟨4, blocks⟩ ∧
      infer_length ⟨0⟩ (planner_node.mk planner_node_type.SEQUENCE_NODE
        [("start", ⟨0⟩), ("begin_index", ⟨0⟩), ("end_index", ⟨10⟩)] [])
        = some ((emitted_rows blocks : Nat) : Int) ∧
      ∀ start end_ : Int, is_flex_int start → is_flex_int end_ →
        make_planner_node start end_ = some (planner_node.mk planner_node_type.SEQUENCE_NODE
          [("start", ⟨0⟩), ("begin_index", ⟨0⟩), ("end_index", ⟨10⟩)] []) →
        ((emitted_rows blocks : Nat) : Int) = end_ - start :=
  ⟨by decide, by decide, by decide, by decide, rfl,
    C3_rows_match_infer_length ⟨0⟩ (planner_node.mk planner_node_type.SEQUENCE_NODE
        [("start", ⟨0⟩), ("begin_index", ⟨0⟩), ("end_index", ⟨10⟩)] []) ⟨0, 10⟩ 4 10
      (by decide) (by decide) (by decide) (by decide)⟩

/-- C4: for all 64-bit integers `start ≤ end_` and every block size `b > 0`,
`from_planner_node` succeeds on the node made by `make_planner_node start end_`, and the
instance it builds emits, on every run, exactly what the instance constructed directly by
`operator_impl start end_` emits; both runs return once the fuel covers `end_ - start`
passes. -/
theorem C4_round_trip (start end_ : Int) (b : Nat) (hs : is_flex_int start)
    (he : is_flex_int end_) (hle : start ≤ end_) (hb : 0 < b) :
    ∃ pnode op_node op_direct,
      make_planner_node start end_ = some pnode ∧
      from_planner_node pnode = some op_node ∧
      operator_impl start end_ = some op_direct ∧
      (∀ fuel context, execute fuel op_node context = execute fuel op_direct context) ∧
      ∀ fuel, (end_ - start).toNat ≤ fuel →
        ∃ blocks, execute fuel op_node (fresh_context b) = some ⟨b, blocks⟩ ∧
          execute fuel op_direct (fresh_context b) = some ⟨b, blocks⟩ := by
  have hB := to_flex_int_made_end start end_ he
  have hA : to_flex_int (to_size_t start + to_size_t 0) = start := by
    have := to_flex_int_add start 0 (by simpa using hs)
    simpa using this
  have hnode : from_planner_node (planner_node.make_shared planner_node_type.SEQUENCE_NODE
      [("start", ⟨start⟩), ("begin_index", ⟨0⟩), ("end_index", ⟨wrap_flex_int (end_ - start)⟩)])
      = operator_impl start end_ := by
    have h := from_planner_node_eq (planner_node.make_shared planner_node_type.SEQUENCE_NODE
      [("start", ⟨start⟩), ("begin_index", ⟨0⟩), ("end_index", ⟨wrap_flex_int (end_ - start)⟩)])
      ⟨start⟩ ⟨0⟩ ⟨wrap_flex_int (end_ - start)⟩ rfl rfl rfl rfl
    simp only [hA, hB] at h
    exact h
  refine ⟨planner_node.make_shared planner_node_type.SEQUENCE_NODE
      [("start", ⟨start⟩), ("begin_index", ⟨0⟩), ("end_index", ⟨wrap_flex_int (end_ - start)⟩)],
    ⟨start, end_⟩, ⟨start, end_⟩, by simp only [make_planner_node, hle, if_true],
    by rw [hnode]; simp [operator_impl, hle], by simp [operator_impl, hle],
    fun _ _ => rfl, ?_⟩
  intro fuel hfuel
  obtain ⟨blocks, hrun, _⟩ := execute_spec ⟨start, end_⟩ b hs he hle hb fuel hfuel
  exact ⟨blocks, hrun, hrun⟩

/-- Witness of C4 at `start = -3`, `end_ = 4`, `b = 2`. -/
theorem C4_round_trip_witness :
    is_flex_int (-3) ∧ is_flex_int 4 ∧ (-3 : Int) ≤ 4 ∧ 0 < 2 ∧
    ∃ pnode op_node op_direct,
      make_planner_node (-3) 4 = some pnode ∧
      from_planner_node pnode = some op_node ∧
      operator_impl (-3) 4 = some op_direct ∧
      (∀ fuel context, execute fuel op_node context = execute fuel op_direct context) ∧
      ∀ fuel, ((4 : Int) - (-3)).toNat ≤ fuel →
        ∃ blocks, execute fuel op_node (fresh_context 2) = some ⟨2, blocks⟩ ∧
          execute fuel op_direct (fresh_context 2) = some ⟨2, blocks⟩ :=
  ⟨by decide, by decide, by decide, by decide,
    C4_round_trip (-3) 4 2 (by decide) (by decide) (by decide) (by decide)⟩

/-- Counterexample to C5 as stated: the slice `begin_index = 2`, `end_index = 5` of a node
whose `start` is `2^63 - 3` satisfies `0 ≤ 2 ≤ 5`, yet `from_planner_node` aborts on it, so
no instance emits `start + 2, start + 3, start + 4`. -/
theorem C5_slice_aborts_near_max :
    (0 : Int) ≤ 2 ∧ (2 : Int) ≤ 5 ∧ is_flex_int 9223372036854775805 ∧
    from_planner_node (planner_node.mk planner_node_type.SEQUENCE_NODE
      [("start", ⟨9223372036854775805⟩), ("begin_index", ⟨2⟩), ("end_index", ⟨5⟩)] [])
      = none := by
  decide

/-- C5 (amended): for every SEQUENCE_NODE plan node with parameters `start`,
`begin_index = i` and `end_index = j` where `0 ≤ i ≤ j` and `start + j ≤ 2^63 - 1`,
`from_planner_node` builds an instance whose execution, for any block size `b > 0`, emits
exactly the values `start + i, …, start + j - 1` in order; with `i = 2` and `j = 5` these
are `start + 2, start + 3, start + 4`. -/
theorem C5_slice_values (pnode : planner_node) (start i j : Int) (b : Nat)
    (hkind : pnode.operator_type = planner_node_type.SEQUENCE_NODE)
    (h1 : pnode.operator_parameters.lookup "start" = some ⟨start⟩)
    (h2 : pnode.operator_parameters.lookup "begin_index" = some ⟨i⟩)
    (h3 : pnode.operator_parameters.lookup "end_index" = some ⟨j⟩)
    (hs : is_flex_int start) (hi : 0 ≤ i) (hij : i ≤ j)
    (hfit : start + j ≤ 9223372036854775807) (hb : 0 < b) :
    ∃ op, from_planner_node pnode = some op ∧
      ∀ fuel, (j - i).toNat ≤ fuel →
        ∃ blocks, execute fuel op (fresh_context b) = some ⟨b, blocks⟩ ∧
          emitted_values blocks = int_range (start + i) (start + j) ∧
          (i = 2 → j = 5 → emitted_values blocks = [start + 2, start + 3, start + 4]) := by
  have hsr := hs
  unfold is_flex_int at hsr
  have ri : is_flex_int (start + i) := ⟨by omega, by omega⟩
  have rj : is_flex_int (start + j) := ⟨by omega, by omega⟩
  have hfrom := from_planner_node_eq pnode ⟨start⟩ ⟨i⟩ ⟨j⟩ hkind h1 h2 h3
  simp only [to_flex_int_add start i ri, to_flex_int_add start j rj] at hfrom
  refine ⟨⟨start + i, start + j⟩, by rw [hfrom]; simp [operator_impl, hij], ?_⟩
  intro fuel hfuel
  obtain ⟨blocks, hrun, hvals, _, _⟩ :=
    execute_spec ⟨start + i, start + j⟩ b ri rj (by simpa using hij) hb fuel
      (by simp only [add_sub_add_left_eq_sub]; exact hfuel)
  refine ⟨blocks, hrun, hvals, ?_⟩
  intro hi2 hj5
  subst hi2 hj5
  rw [hvals]
  have h3 : (start + 5 - (start + 2)).toNat = 3 := by omega
  simp only [int_range, h3, consecutive_succ, consecutive_zero]
  simp only [add_assoc]
  norm_num

/-- Witness of C5 (amended) at `start = 7`, `begin_index = 2`, `end_index = 5`, `b = 2`. -/
theorem C5_slice_values_witness :
    is_flex_int 7 ∧ (0 : Int) ≤ 2 ∧ (2 : Int) ≤ 5 ∧ (7 : Int) + 5 ≤ 9223372036854775807 ∧
    0 < 2 ∧
    ∃ op, from_planner_node (planner_node.mk planner_node_type.SEQUENCE_NODE
        [("start", ⟨7⟩), ("begin_index", ⟨2⟩), ("end_index", ⟨5⟩)] []) = some op ∧
      ∀ fuel, ((5 : Int) - 2).toNat ≤ fuel →
        ∃ blocks, execute fuel op (fresh_context 2) = some ⟨2, blocks⟩ ∧
          emitted_values blocks = int_range (7 + 2) (7 + 5) ∧
          ((2 : Int) = 2 → (5 : Int) = 5 → emitted_values blocks = [7 + 2, 7 + 3, 7 + 4]) :=
  ⟨by decide, by decide, by decide, by decide, by decide,
    C5_slice_values (planner_node.mk planner_node_type.SEQUENCE_NODE
        [("start", ⟨7⟩), ("begin_index", ⟨2⟩), ("end_index", ⟨5⟩)] []) 7 2 5 2
      rfl rfl rfl rfl (by decide) (by decide) (by decide) (by decide) (by decide)⟩

/-- C6: `make_planner_node start end_` and the constructor `operator_impl start end_` each
abort exactly when `start > end_`; an aborted call produces neither a plan node nor an
instance (its result is `none`). -/
theorem C6_invalid_construction (start end_ : Int) :
    (make_planner_node start end_ = none ↔ start > end_) ∧
    (operator_impl start end_ = none ↔ start > end_) := by
  by_cases h : start ≤ end_
  · have h2 : ¬ start > end_ := not_lt.mpr h
    simp [make_planner_node, operator_impl, h, h2]
  · have h2 : start > end_ := not_le.mp h
    simp [make_planner_node, operator_impl, h, h2]

/-- Counterexample to C7 as stated: for `start = -1` and `end_ = 2^63 - 1` the node stores
`-2^63` under `end_index`, whereas `end_ - start` is `2^63`. -/
theorem C7_end_index_wraps :
    is_flex_int (-1) ∧ is_flex_int 9223372036854775807 ∧ (-1 : Int) ≤ 9223372036854775807 ∧
    (make_planner_node (-1) 9223372036854775807).map
        (fun pnode => pnode.operator_parameters.lookup "end_index")
      = some (some ⟨-9223372036854775808⟩) ∧
    (9223372036854775807 : Int) - (-1) ≠ -9223372036854775808 := by
  decide

/-- C7 (amended): for all integers `start ≤ end_` with `end_ - start ≤ 2^63 - 1`,
`make_planner_node start end_` returns a node of kind `SEQUENCE_NODE` with no inputs whose
parameter mapping has exactly the three keys `start`, `begin_index` and `end_index`, with
values `start`, `0` and `end_ - start`. -/
theorem C7_make_planner_node_contents (start end_ : Int) (hle : start ≤ end_)
    (hfit : end_ - start ≤ 9223372036854775807) :
    ∃ pnode, make_planner_node start end_ = some pnode ∧
      pnode.operator_type = planner_node_type.SEQUENCE_NODE ∧
      pnode.inputs = [] ∧
      pnode.operator_parameters.lookup "start" = some ⟨start⟩ ∧
      pnode.operator_parameters.lookup "begin_index" = some ⟨0⟩ ∧
      pnode.operator_parameters.lookup "end_index" = some ⟨end_ - start⟩ ∧
      pnode.operator_parameters.length = 3 ∧
      ∀ key, map_count pnode.operator_parameters key = 1 ↔
        key = "start" ∨ key = "begin_index" ∨ key = "end_index" := by
  have hw : wrap_flex_int (end_ - start) = end_ - start :=
    wrap_flex_int_of_range _ ⟨by omega, by omega⟩
  refine ⟨planner_node.make_shared planner_node_type.SEQUENCE_NODE
      [("start", ⟨start⟩), ("begin_index", ⟨0⟩), ("end_index", ⟨end_ - start⟩)],
    by simp only [make_planner_node, hle, if_true, hw], rfl, rfl, rfl, rfl, rfl, rfl, ?_⟩
  intro key
  simp only [planner_node.make_shared, planner_node.operator_parameters, map_count,
    List.lookup]
  by_cases h1 : key = "start"
  · subst h1
    simp
  · by_cases h2 : key = "begin_index"
    · subst h2
      simp
    · by_cases h3 : key = "end_index"
      · subst h3
        simp
      · have e1 : (key == "start") = false := by simpa using h1
        have e2 : (key == "begin_index") = false := by simpa using h2
        have e3 : (key == "end_index") = false := by simpa using h3
        simp [e1, e2, e3, h1, h2, h3]

/-- Witness of C7 (amended) at `start = 3`, `end_ = 8`. -/
theorem C7_make_planner_node_contents_witness :
    (3 : Int) ≤ 8 ∧ (8 : Int) - 3 ≤ 9223372036854775807 ∧
    ∃ pnode, make_planner_node 3 8 = some pnode ∧
      pnode.operator_type = planner_node_type.SEQUENCE_NODE ∧
      pnode.inputs = [] ∧
      pnode.operator_parameters.lookup "start" = some ⟨3⟩ ∧
      pnode.operator_parameters.lookup "begin_index" = some ⟨0⟩ ∧
      pnode.operator_parameters.lookup "end_index" = some ⟨8 - 3⟩ ∧
      pnode.operator_parameters.length = 3 ∧
      ∀ key, map_count pnode.operator_parameters key = 1 ↔
        key = "start" ∨ key = "begin_index" ∨ key = "end_index" :=
  ⟨by decide, by decide, C7_make_planner_node_contents 3 8 (by decide) (by decide)⟩

/-- Counterexample to C8 as stated: on a SEQUENCE_NODE node with `begin_index = -1` and
`end_index = 2^63 - 1`, `infer_length` returns `-2^63`, whereas `end_index - begin_index`
is `2^63`. -/
theorem C8_infer_length_wraps :
    infer_length ⟨0⟩ (planner_node.mk planner_node_type.SEQUENCE_NODE
      [("start", ⟨0⟩), ("begin_index", ⟨-1⟩), ("end_index", ⟨9223372036854775807⟩)] [])
      = some (-9223372036854775808) ∧
    (9223372036854775807 : Int) - (-1) ≠ -9223372036854775808 := by
  decide

/-- C8 (amended): for every SEQUENCE_NODE plan node whose `end_index` minus `begin_index`
lies in the range of `int64_t`, `infer_length` returns that difference; it reads the two
parameters only and builds or runs no instance. -/
theorem C8_infer_length_difference (default_value : flexible_type) (pnode : planner_node)
    (p_begin p_end : flexible_type)
    (hkind : pnode.operator_type = planner_node_type.SEQUENCE_NODE)
    (h2 : pnode.operator_parameters.lookup "begin_index" = some p_begin)
    (h3 : pnode.operator_parameters.lookup "end_index" = some p_end)
    (hfit : is_flex_int (p_end.intval - p_begin.intval)) :
    infer_length default_value pnode = some (p_end.intval - p_begin.intval) := by
  have hw := wrap_flex_int_of_range _ hfit
  have hw2 : to_flex_int (to_size_t (p_end.intval - p_begin.intval))
      = p_end.intval - p_begin.intval := hw
  simp [infer_length, hkind, map_index, h2, h3, flexible_type.sub, flexible_type.as_size_t,
    hw, hw2]

/-- Witness of C8 (amended) at a node with `begin_index = 2` and `end_index = 5`. -/
theorem C8_infer_length_difference_witness :
    is_flex_int ((5 : Int) - 2) ∧
    infer_length ⟨0⟩ (planner_node.mk planner_node_type.SEQUENCE_NODE
      [("start", ⟨7⟩), ("begin_index", ⟨2⟩), ("end_index", ⟨5⟩)] []) = some (5 - 2) :=
  ⟨by decide,
    C8_infer_length_difference ⟨0⟩ (planner_node.mk planner_node_type.SEQUENCE_NODE
      [("start", ⟨7⟩), ("begin_index", ⟨2⟩), ("end_index", ⟨5⟩)] []) ⟨2⟩ ⟨5⟩ rfl rfl rfl
      (by decide)⟩

/-- C9: for every plan node, whatever its kind and parameters, `infer_type` returns the
one-element list `[INTEGER]`. -/
theorem C9_infer_type_integer (pnode : planner_node) :
    infer_type pnode = [flex_type_enum.INTEGER] :=
  rfl

/-- Counterexample to C10 as stated: a SEQUENCE_NODE node carrying `start = 2^63 - 1`,
`begin_index = 0` and `end_index = 1` has `begin_index ≤ end_index`, yet
`from_planner_node` aborts on it, because `start + end_index` wraps around to `-2^63`. -/
theorem C10_aborts_when_end_wraps :
    is_flex_int 9223372036854775807 ∧ is_flex_int 0 ∧ is_flex_int 1 ∧ (0 : Int) ≤ 1 ∧
    from_planner_node (planner_node.mk planner_node_type.SEQUENCE_NODE
      [("start", ⟨9223372036854775807⟩), ("begin_index", ⟨0⟩), ("end_index", ⟨1⟩)] [])
      = none := by
  decide

/-- C10 (amended): `from_planner_node` aborts on every node whose kind is not
`SEQUENCE_NODE` and on every node missing any of the parameters `start`, `begin_index` or
`end_index`; on a `SEQUENCE_NODE` node carrying all three with
`begin_index ≤ end_index`, and with `start + begin_index` and `start + end_index` both in
the range of `flex_int`, it succeeds and the range of the instance is
`[start + begin_index, start + end_index)`. -/
theorem C10_from_planner_node_validation (pnode : planner_node) :
    (pnode.operator_type ≠ planner_node_type.SEQUENCE_NODE → from_planner_node pnode = none) ∧
    (∀ key, key = "start" ∨ key = "begin_index" ∨ key = "end_index" →
      pnode.operator_parameters.lookup key = none → from_planner_node pnode = none) ∧
    (∀ start begin_index end_index : Int,
      pnode.operator_type = planner_node_type.SEQUENCE_NODE →
      pnode.operator_parameters.lookup "start" = some ⟨start⟩ →
      pnode.operator_parameters.lookup "begin_index" = some ⟨begin_index⟩ →
      pnode.operator_parameters.lookup "end_index" = some ⟨end_index⟩ →
      begin_index ≤ end_index →
      is_flex_int (start + begin_index) → is_flex_int (start + end_index) →
      from_planner_node pnode = some ⟨start + begin_index, start + end_index⟩) := by
  refine ⟨?_, ?_, ?_⟩
  · intro hkind
    simp [from_planner_node, hkind]
  · intro key hkey hnone
    cases hfrom : from_planner_node pnode with
    | none => rfl
    | some op =>
      obtain ⟨_, ps, pb, pe, h1, h2, h3⟩ := from_planner_node_some pnode op hfrom
      rcases hkey with h | h | h <;> subst h
      · rw [h1] at hnone
        cases hnone
      · rw [h2] at hnone
        cases hnone
      · rw [h3] at hnone
        cases hnone
  · intro start begin_index end_index hkind h1 h2 h3 hle r1 r2
    have hfrom := from_planner_node_eq pnode ⟨start⟩ ⟨begin_index⟩ ⟨end_index⟩ hkind h1 h2 h3
    simp only [to_flex_int_add start begin_index r1, to_flex_int_add start end_index r2]
      at hfrom
    rw [hfrom]
    simp [operator_impl, hle]

/-- Witness of C10 (amended): a node of another kind, a node without `end_index`, and the
node with `start = 7`, `begin_index = 2`, `end_index = 5`. -/
theorem C10_from_planner_node_validation_witness :
    (planner_node_type.OTHER_NODE 0 ≠ planner_node_type.SEQUENCE_NODE ∧
      from_planner_node (planner_node.mk (planner_node_type.OTHER_NODE 0)
        [("start", ⟨7⟩), ("begin_index", ⟨2⟩), ("end_index", ⟨5⟩)] []) = none) ∧
    (List.lookup "end_index" [("start", (⟨7⟩ : flexible_type)), ("begin_index", ⟨2⟩)] = none ∧
      from_planner_node (planner_node.mk planner_node_type.SEQUENCE_NODE
        [("start", ⟨7⟩), ("begin_index", ⟨2⟩)] []) = none) ∧
    ((2 : Int) ≤ 5 ∧ is_flex_int (7 + 2) ∧ is_flex_int (7 + 5) ∧
      from_planner_node (planner_node.mk planner_node_type.SEQUENCE_NODE
        [("start", ⟨7⟩), ("begin_index", ⟨2⟩), ("end_index", ⟨5⟩)] []) = some ⟨7 + 2, 7 + 5⟩) :=
  ⟨⟨by decide,
      (C10_from_planner_node_validation (planner_node.mk (planner_node_type.OTHER_NODE 0)
        [("start", ⟨7⟩), ("begin_index", ⟨2⟩), ("end_index", ⟨5⟩)] [])).1 (by decide)⟩,
    ⟨by decide,
      (C10_from_planner_node_validation (planner_node.mk planner_node_type.SEQUENCE_NODE
        [("start", ⟨7⟩), ("begin_index", ⟨2⟩)] [])).2.1 "end_index" (by decide) (by decide)⟩,
    ⟨by decide, by decide, by decide,
      (C10_from_planner_node_validation (planner_node.mk planner_node_type.SEQUENCE_NODE
        [("start", ⟨7⟩), ("begin_index", ⟨2⟩), ("end_index", ⟨5⟩)] [])).2.2 7 2 5
        rfl rfl rfl rfl (by decide) (by decide) (by decide)⟩⟩

/-- C11: for every integer `s` and every block size `b`, zero included, the operator
constructed from `(s, s)` emits no block at all when executed, whatever the fuel, and
`infer_length` of the node made from `(s, s)` is `0`. -/
theorem C11_degenerate_range (default_value : flexible_type) (s : Int) (b fuel : Nat) :
    operator_impl s s = some ⟨s, s⟩ ∧
    execute fuel ⟨s, s⟩ (fresh_context b) = some ⟨b, []⟩ ∧
    ∃ pnode, make_planner_node s s = some pnode ∧
      infer_length default_value pnode = some 0 := by
  refine ⟨by simp [operator_impl], ?_, ?_⟩
  · cases fuel <;> simp [execute, execute_loop, fresh_context]
  · refine ⟨planner_node.make_shared planner_node_type.SEQUENCE_NODE
        [("start", ⟨s⟩), ("begin_index", ⟨0⟩), ("end_index", ⟨wrap_flex_int (s - s)⟩)],
      by simp [make_planner_node], ?_⟩
    have h0 : wrap_flex_int (s - s) = 0 := by
      rw [sub_self]
      rfl
    rw [h0]
    rfl

/-- Counterexample to C12 as stated: on the SEQUENCE_NODE node with `start = 0`,
`begin_index = -1` and `end_index = 5`, `repr` returns `Sequence(0)[18446744073709551615:5]`,
whereas the decimal forms of the three integers give `Sequence(0)[-1:5]`. -/
theorem C12_negative_index_rendering :
    repr (planner_node.mk planner_node_type.SEQUENCE_NODE
      [("start", ⟨0⟩), ("begin_index", ⟨-1⟩), ("end_index", ⟨5⟩)] [])
      = some "Sequence(0)[18446744073709551615:5]" ∧
    "Sequence(" ++ decimal 0 ++ ")[" ++ decimal (-1) ++ ":" ++ decimal 5 ++ "]"
      = "Sequence(0)[-1:5]" ∧
    repr (planner_node.mk planner_node_type.SEQUENCE_NODE
      [("start", ⟨0⟩), ("begin_index", ⟨-1⟩), ("end_index", ⟨5⟩)] [])
      ≠ some ("Sequence(" ++ decimal 0 ++ ")[" ++ decimal (-1) ++ ":" ++ decimal 5 ++ "]") := by
  decide

/-- C12 (amended): for every SEQUENCE_NODE plan node carrying integer parameters `start`,
`begin_index` and `end_index`, `repr` is `Sequence(` start `)[` begin_index `:` end_index
`]`, where `start` is rendered as the decimal form of its integer value and `begin_index`
and `end_index` as the decimal form of their value converted to `size_t`, which is their
integer value whenever it is non-negative; `repr` aborts if the kind differs or any of the
three parameters is absent. -/
theorem C12_repr_format (pnode : planner_node) :
    (pnode.operator_type ≠ planner_node_type.SEQUENCE_NODE → repr pnode = none) ∧
    (∀ key, key = "start" ∨ key = "begin_index" ∨ key = "end_index" →
      pnode.operator_parameters.lookup key = none → repr pnode = none) ∧
    (∀ start begin_index end_index : Int,
      pnode.operator_type = planner_node_type.SEQUENCE_NODE →
      pnode.operator_parameters.lookup "start" = some ⟨start⟩ →
      pnode.operator_parameters.lookup "begin_index" = some ⟨begin_index⟩ →
      pnode.operator_parameters.lookup "end_index" = some ⟨end_index⟩ →
      repr pnode = some ("Sequence(" ++ decimal start ++ ")["
          ++ decimal (to_size_t begin_index) ++ ":" ++ decimal (to_size_t end_index) ++ "]") ∧
      (0 ≤ begin_index → is_flex_int begin_index → 0 ≤ end_index → is_flex_int end_index →
        repr pnode = some ("Sequence(" ++ decimal start ++ ")["
          ++ decimal begin_index ++ ":" ++ decimal end_index ++ "]"))) := by
  refine ⟨?_, ?_, ?_⟩
  · intro hkind
    simp [repr, hkind]
  · intro key hkey hnone
    cases hrepr : repr pnode with
    | none => rfl
    | some text =>
      obtain ⟨_, ps, pb, pe, h1, h2, h3⟩ := repr_some pnode text hrepr
      rcases hkey with h | h | h <;> subst h
      · rw [h1] at hnone
        cases hnone
      · rw [h2] at hnone
        cases hnone
      · rw [h3] at hnone
        cases hnone
  · intro start begin_index end_index hkind h1 h2 h3
    have hrepr := repr_eq pnode ⟨start⟩ ⟨begin_index⟩ ⟨end_index⟩ hkind h1 h2 h3
    simp only [stream_size_t_eq_decimal] at hrepr
    have hstart : stream_flex_int start = decimal start := rfl
    rw [hstart] at hrepr
    refine ⟨hrepr, ?_⟩
    intro hb0 hb he0 he
    rw [hrepr, to_size_t_of_nonneg begin_index hb0 hb, to_size_t_of_nonneg end_index he0 he]

/-- Witness of C12 (amended): a node of another kind, a node without `begin_index`, and the
node with `start = -7`, `begin_index = 2`, `end_index = 5`. -/
theorem C12_repr_format_witness :
    (planner_node_type.OTHER_NODE 0 ≠ planner_node_type.SEQUENCE_NODE ∧
      repr (planner_node.mk (planner_node_type.OTHER_NODE 0)
        [("start", ⟨-7⟩), ("begin_index", ⟨2⟩), ("end_index", ⟨5⟩)] []) = none) ∧
    (List.lookup "begin_index" [("start", (⟨-7⟩ : flexible_type)), ("end_index", ⟨5⟩)] = none ∧
      repr (planner_node.mk planner_node_type.SEQUENCE_NODE
        [("start", ⟨-7⟩), ("end_index", ⟨5⟩)] []) = none) ∧
    ((0 : Int) ≤ 2 ∧ is_flex_int 2 ∧ (0 : Int) ≤ 5 ∧ is_flex_int 5 ∧
      repr (planner_node.mk planner_node_type.SEQUENCE_NODE
        [("start", ⟨-7⟩), ("begin_index", ⟨2⟩), ("end_index", ⟨5⟩)] [])
        = some ("Sequence(" ++ decimal (-7) ++ ")[" ++ decimal 2 ++ ":" ++ decimal 5 ++ "]") ∧
      "Sequence(" ++ decimal (-7) ++ ")[" ++ decimal 2 ++ ":" ++ decimal 5 ++ "]"
        = "Sequence(-7)[2:5]") :=
  ⟨⟨by decide,
      (C12_repr_format (planner_node.mk (planner_node_type.OTHER_NODE 0)
        [("start", ⟨-7⟩), ("begin_index", ⟨2⟩), ("end_index", ⟨5⟩)] [])).1 (by decide)⟩,
    ⟨by decide,
      (C12_repr_format (planner_node.mk planner_node_type.SEQUENCE_NODE
        [("start", ⟨-7⟩), ("end_index", ⟨5⟩)] [])).2.1 "begin_index" (by decide) (by decide)⟩,
    ⟨by decide, by decide, by decide, by decide,
      ((C12_repr_format (planner_node.mk planner_node_type.SEQUENCE_NODE
        [("start", ⟨-7⟩), ("begin_index", ⟨2⟩), ("end_index", ⟨5⟩)] [])).2.2 (-7) 2 5
        rfl rfl rfl rfl).2 (by decide) (by decide) (by decide) (by decide),
      by decide⟩⟩

/-- C13: for every operator the constructor has built, `clone` does not abort and returns
an instance with the same `m_start` and `m_end`; the clone therefore runs exactly as the
original does, and for a block size `b > 0` both runs return the same emitted blocks. -/
theorem C13_clone_same_instance (start end_ : Int) (b : Nat) (op : op_sequence)
    (hs : is_flex_int start) (he : is_flex_int end_)
    (hop : operator_impl start end_ = some op) (hb : 0 < b) :
    ∃ c, clone op = some c ∧ c.m_start = op.m_start ∧ c.m_end = op.m_end ∧
      (∀ fuel context, execute fuel c context = execute fuel op context) ∧
      ∀ fuel, (op.m_end - op.m_start).toNat ≤ fuel →
        ∃ blocks, execute fuel c (fresh_context b) = some ⟨b, blocks⟩ ∧
          execute fuel op (fresh_context b) = some ⟨b, blocks⟩ := by
  obtain ⟨hle, h1, h2⟩ := operator_impl_some start end_ op hop
  have hle2 : op.m_start ≤ op.m_end := by rw [h1, h2]; exact hle
  refine ⟨op, by simp [clone, operator_impl, hle2], rfl, rfl, fun _ _ => rfl, ?_⟩
  intro fuel hfuel
  obtain ⟨blocks, hrun, _⟩ := execute_spec op b (h1 ▸ hs) (h2 ▸ he) hle2 hb fuel hfuel
  exact ⟨blocks, hrun, hrun⟩

/-- Witness of C13 at the operator built from `(0, 10)` with `b = 4`. -/
theorem C13_clone_same_instance_witness :
    is_flex_int 0 ∧ is_flex_int 10 ∧ operator_impl 0 10 = some ⟨0, 10⟩ ∧ 0 < 4 ∧
    ∃ c, clone ⟨0, 10⟩ = some c ∧ c.m_start = (0 : Int) ∧ c.m_end = (10 : Int) ∧
      (∀ fuel context, execute fuel c context = execute fuel ⟨0, 10⟩ context) ∧
      ∀ fuel, ((10 : Int) - 0).toNat ≤ fuel →
        ∃ blocks, execute fuel c (fresh_context 4) = some ⟨4, blocks⟩ ∧
          execute fuel ⟨0, 10⟩ (fresh_context 4) = some ⟨4, blocks⟩ :=
  ⟨by decide, by decide, by decide, by decide,
    C13_clone_same_instance 0 10 4 ⟨0, 10⟩ (by decide) (by decide) (by decide) (by decide)⟩

/-- C14: for all 64-bit integers `start ≤ end_` and every block size `b > 0`, `execute`
emits exactly the quotient of `end_ - start` by `b`, rounded up, many blocks; block `k`
(counted from `0`) is the single column holding `start + k * b, …,
min (start + (k + 1) * b) end_ - 1`; no emitted block is empty and every block but the
last holds exactly `b` rows. -/
theorem C14_exact_partition (start end_ : Int) (b : Nat) (hs : is_flex_int start)
    (he : is_flex_int end_) (hle : start ≤ end_) (hb : 0 < b) :
    ∃ op, operator_impl start end_ = some op ∧
      ∀ fuel, (end_ - start).toNat ≤ fuel →
        ∃ blocks, execute fuel op (fresh_context b) = some ⟨b, blocks⟩ ∧
          blocks.length = block_count (end_ - start).toNat b ∧
          (∀ k : Nat, k < blocks.length ↔ (k : Int) * (b : Int) < end_ - start) ∧
          ∀ (k : Nat) (blk : sframe_rows), blocks[k]? = some blk →
            blk = single_column_block (int_range (start + (k : Int) * (b : Int))
              (min (start + ((k : Int) + 1) * (b : Int)) end_)) ∧
            0 < blk.num_rows ∧
            (k + 1 < blocks.length → blk.num_rows = b) := by
  refine ⟨⟨start, end_⟩, by simp [operator_impl, hle], ?_⟩
  intro fuel hfuel
  have hrun := execute_loop_partition end_ he b hb fuel start [] hs hle hfuel
  have hcount : ∀ k : Nat,
      k < block_count (end_ - start).toNat b ↔ (k : Int) * (b : Int) < end_ - start := by
    intro k
    rw [lt_block_count_iff _ b k hb]
    constructor
    · intro h
      have h2 : ((k * b : Nat) : Int) < ((end_ - start).toNat : Int) := by exact_mod_cast h
      rw [Int.toNat_of_nonneg (sub_nonneg.mpr hle)] at h2
      push_cast at h2
      exact h2
    · intro h
      have h2 : ((k * b : Nat) : Int) < ((end_ - start).toNat : Int) := by
        rw [Int.toNat_of_nonneg (sub_nonneg.mpr hle)]
        push_cast
        exact h
      exact_mod_cast h2
  refine ⟨expected_blocks start end_ b, by simpa [execute, fresh_context] using hrun,
    expected_blocks_length start end_ b, ?_, ?_⟩
  · intro k
    rw [expected_blocks_length]
    exact hcount k
  · intro k blk hk
    obtain ⟨hklt, hblk⟩ := expected_blocks_get_at start end_ b k blk hk
    have hkb := (hcount k).mp hklt
    refine ⟨hblk, ?_, ?_⟩
    · rw [hblk]
      simp only [single_column_block, sframe_rows.num_rows, List.length_map, int_range,
        consecutive_length]
      have e : start + ((k : Int) + 1) * (b : Int) = start + (k : Int) * (b : Int) + (b : Int) := by
        ring
      rw [e]
      generalize (k : Int) * (b : Int) = t at hkb ⊢
      omega
    · intro hnext
      rw [expected_blocks_length] at hnext
      have hkb2 := (hcount (k + 1)).mp hnext
      rw [hblk]
      simp only [single_column_block, sframe_rows.num_rows, List.length_map, int_range,
        consecutive_length]
      have e : start + ((k : Int) + 1) * (b : Int) = start + (k : Int) * (b : Int) + (b : Int) := by
        ring
      have e2 : (((k + 1 : Nat) : Int)) * (b : Int) = (k : Int) * (b : Int) + (b : Int) := by
        push_cast
        ring
      rw [e2] at hkb2
      rw [e]
      generalize (k : Int) * (b : Int) = t at hkb hkb2 ⊢
      omega

/-- Witness of C14 at `start = 0`, `end_ = 10`, `b = 4`: three blocks, holding
`0, 1, 2, 3`, then `4, 5, 6, 7`, then `8, 9`. -/
theorem C14_exact_partition_witness :
    is_flex_int 0 ∧ is_flex_int 10 ∧ (0 : Int) ≤ 10 ∧ 0 < 4 ∧
    (∃ op, operator_impl 0 10 = some op ∧
      ∀ fuel, ((10 : Int) - 0).toNat ≤ fuel →
        ∃ blocks, execute fuel op (fresh_context 4) = some ⟨4, blocks⟩ ∧
          blocks.length = block_count ((10 : Int) - 0).toNat 4 ∧
          (∀ k : Nat, k < blocks.length ↔ (k : Int) * ((4 : Nat) : Int) < 10 - 0) ∧
          ∀ (k : Nat) (blk : sframe_rows), blocks[k]? = some blk →
            blk = single_column_block (int_range (0 + (k : Int) * ((4 : Nat) : Int))
              (min (0 + ((k : Int) + 1) * ((4 : Nat) : Int)) 10)) ∧
            0 < blk.num_rows ∧
            (k + 1 < blocks.length → blk.num_rows = 4)) ∧
    execute 10 ⟨0, 10⟩ (fresh_context 4)
      = some ⟨4, [single_column_block [0, 1, 2, 3], single_column_block [4, 5, 6, 7],
          single_column_block [8, 9]]⟩ ∧
    block_count 10 4 = 3 :=
  ⟨by decide, by decide, by decide, by decide,
    C14_exact_partition 0 10 4 (by decide) (by decide) (by decide) (by decide),
    by decide, by decide⟩

/-- C15: for every constructed operator and block size `b > 0`, the loop of `execute`,
given fuel for `m_end - m_start` passes, ends without abort; the values of the cursor at
the successive tests of the loop condition start at `m_start`, never exceed `m_end`,
increase strictly from one test to the next, and end at `m_end`; the loop body is passed
through at most `m_end - m_start` times. -/
theorem C15_cursor_progress (start end_ : Int) (b : Nat) (op : op_sequence)
    (hs : is_flex_int start) (he : is_flex_int end_)
    (hop : operator_impl start end_ = some op) (hb : 0 < b) :
    ∀ fuel, (op.m_end - op.m_start).toNat ≤ fuel →
      ∃ cursors context,
        execute_loop_trace op.m_end fuel op.m_start (fresh_context b)
          = some (cursors, context) ∧
        execute fuel op (fresh_context b) = some context ∧
        cursors.head? = some op.m_start ∧
        (∀ c ∈ cursors, c ≤ op.m_end) ∧
        List.Chain' (fun x y : Int => x < y) cursors ∧
        cursors.getLast? = some op.m_end ∧
        cursors.length - 1 ≤ (op.m_end - op.m_start).toNat := by
  obtain ⟨hle, h1, h2⟩ := operator_impl_some start end_ op hop
  intro fuel hfuel
  obtain ⟨rest, context, hrun, hbound, hchain, hlast, hcount⟩ :=
    execute_loop_trace_spec op.m_end (h2 ▸ he) b hb fuel op.m_start [] (h1 ▸ hs)
      (by rw [h1, h2]; exact hle) hfuel
  refine ⟨op.m_start :: rest, context, hrun, ?_, rfl, fun c hc => (hbound c hc).2, hchain,
    hlast, by simpa using hcount⟩
  have hctx := execute_loop_trace_context op.m_end fuel op.m_start (fresh_context b)
  unfold execute
  rw [← hctx]
  have hrun2 : execute_loop_trace op.m_end fuel op.m_start (fresh_context b)
      = some (op.m_start :: rest, context) := hrun
  rw [hrun2]
  rfl

/-- Witness of C15 at the operator built from `(0, 10)` with `b = 4`, whose cursor takes
the values `0, 4, 8, 10`. -/
theorem C15_cursor_progress_witness :
    is_flex_int 0 ∧ is_flex_int 10 ∧ operator_impl 0 10 = some ⟨0, 10⟩ ∧ 0 < 4 ∧
    (∀ fuel, ((10 : Int) - 0).toNat ≤ fuel →
      ∃ cursors context,
        execute_loop_trace 10 fuel 0 (fresh_context 4) = some (cursors, context) ∧
        execute fuel ⟨0, 10⟩ (fresh_context 4) = some context ∧
        cursors.head? = some (0 : Int) ∧
        (∀ c ∈ cursors, c ≤ (10 : Int)) ∧
        List.Chain' (fun x y : Int => x < y) cursors ∧
        cursors.getLast? = some (10 : Int) ∧
        cursors.length - 1 ≤ ((10 : Int) - 0).toNat) ∧
    (execute_loop_trace 10 10 0 (fresh_context 4)).map Prod.fst = some [0, 4, 8, 10] :=
  ⟨by decide, by decide, by decide, by decide,
    C15_cursor_progress 0 10 4 ⟨0, 10⟩ (by decide) (by decide) (by decide) (by decide),
    by decide⟩

/-- Counterexample to C16 as stated: on the SEQUENCE_NODE node with `start = 2^63 - 1`,
`begin_index = 1` and `end_index = 0`, where `end_index < begin_index`,
`from_planner_node` does not abort: `start + begin_index` wraps around to `-2^63` and the
instance covers `[-2^63, 2^63 - 1)`. And on the node with `start = 0`, `begin_index = 1`
and `end_index = -2^63`, `infer_length` returns the positive number `2^63 - 1`. -/
theorem C16_inverted_slice_accepted :
    ((0 : Int) < 1 ∧ is_flex_int 9223372036854775807 ∧ is_flex_int 1 ∧ is_flex_int 0 ∧
      from_planner_node (planner_node.mk planner_node_type.SEQUENCE_NODE
        [("start", ⟨9223372036854775807⟩), ("begin_index", ⟨1⟩), ("end_index", ⟨0⟩)] [])
        = some ⟨-9223372036854775808, 9223372036854775807⟩) ∧
    ((-9223372036854775808 : Int) < 1 ∧ is_flex_int (-9223372036854775808) ∧
      infer_length ⟨0⟩ (planner_node.mk planner_node_type.SEQUENCE_NODE
        [("start", ⟨0⟩), ("begin_index", ⟨1⟩), ("end_index", ⟨-9223372036854775808⟩)] [])
        = some 9223372036854775807) := by
  decide

/-- C16 (amended): on a SEQUENCE_NODE plan node whose `end_index` is smaller than its
`begin_index`, `from_planner_node` aborts provided `start + begin_index` and
`start + end_index` lie in the range of `flex_int`; `infer_length` on that same node does
not abort, and it returns the negative number `end_index - begin_index` provided that
difference lies in the range of `int64_t`. -/
theorem C16_inverted_slice (default_value : flexible_type) (pnode : planner_node)
    (begin_index end_index : Int)
    (hkind : pnode.operator_type = planner_node_type.SEQUENCE_NODE)
    (h2 : pnode.operator_parameters.lookup "begin_index" = some ⟨begin_index⟩)
    (h3 : pnode.operator_parameters.lookup "end_index" = some ⟨end_index⟩)
    (hlt : end_index < begin_index) :
    ((∀ start : Int, pnode.operator_parameters.lookup "start" = some ⟨start⟩ →
        is_flex_int (start + begin_index) ∧ is_flex_int (start + end_index)) →
      from_planner_node pnode = none) ∧
    (∃ n, infer_length default_value pnode = some n) ∧
    (is_flex_int (end_index - begin_index) →
      infer_length default_value pnode = some (end_index - begin_index) ∧
      end_index - begin_index < 0) := by
  have hlen := infer_length_eq default_value pnode ⟨begin_index⟩ ⟨end_index⟩ hkind h2 h3
  refine ⟨?_, ⟨_, hlen⟩, ?_⟩
  · intro hsum
    cases h1 : pnode.operator_parameters.lookup "start" with
    | none => simp [from_planner_node, map_count, hkind, h1]
    | some p_start =>
      obtain ⟨r1, r2⟩ := hsum p_start.intval h1
      rw [from_planner_node_eq pnode p_start ⟨begin_index⟩ ⟨end_index⟩ hkind h1 h2 h3]
      simp only [to_flex_int_add p_start.intval begin_index r1,
        to_flex_int_add p_start.intval end_index r2]
      have hgt : ¬ (p_start.intval + begin_index ≤ p_start.intval + end_index) :=
        not_le.mpr (add_lt_add_left hlt _)
      simp [operator_impl, hgt]
  · intro hfit
    have hw := wrap_flex_int_of_range _ hfit
    have hw2 : to_flex_int (to_size_t (end_index - begin_index)) = end_index - begin_index := hw
    rw [hlen]
    simp only [hw, hw2]
    exact ⟨trivial, by omega⟩

/-- Witness of C16 (amended) at the node with `start = 7`, `begin_index = 5`,
`end_index = 2`. -/
theorem C16_inverted_slice_witness :
    (2 : Int) < 5 ∧ is_flex_int (7 + 5) ∧ is_flex_int (7 + 2) ∧ is_flex_int (2 - 5) ∧
    from_planner_node (planner_node.mk planner_node_type.SEQUENCE_NODE
      [("start", ⟨7⟩), ("begin_index", ⟨5⟩), ("end_index", ⟨2⟩)] []) = none ∧
    infer_length ⟨0⟩ (planner_node.mk planner_node_type.SEQUENCE_NODE
      [("start", ⟨7⟩), ("begin_index", ⟨5⟩), ("end_index", ⟨2⟩)] []) = some (2 - 5) ∧
    (2 : Int) - 5 < 0 :=
  ⟨by decide, by decide, by decide, by decide,
    (C16_inverted_slice ⟨0⟩ (planner_node.mk planner_node_type.SEQUENCE_NODE
      [("start", ⟨7⟩), ("begin_index", ⟨5⟩), ("end_index", ⟨2⟩)] []) 5 2 rfl rfl rfl
      (by decide)).1 (fun start h => by
        have hs : start = 7 := by
          have h7 : some (flexible_type.mk 7) = some (flexible_type.mk start) := h
          exact (flexible_type.mk.inj (Option.some.inj h7)).symm
        subst hs
        exact ⟨by decide, by decide⟩),
    ((C16_inverted_slice ⟨0⟩ (planner_node.mk planner_node_type.SEQUENCE_NODE
      [("start", ⟨7⟩), ("begin_index", ⟨5⟩), ("end_index", ⟨2⟩)] []) 5 2 rfl rfl rfl
      (by decide)).2.2 (by decide))⟩

/-- C17: `execute` hands the instance back with `m_start` and `m_end` as they were,
whatever the context and the fuel; for a constructed operator and a block size `b > 0` the
run returns, and a second run of the instance that comes back, with the same block size,
emits the same blocks as the first, whether it starts on a fresh context or on the context
the first run left. -/
theorem C17_execute_keeps_range (start end_ : Int) (b : Nat) (op : op_sequence)
    (hs : is_flex_int start) (he : is_flex_int end_)
    (hop : operator_impl start end_ = some op) (hb : 0 < b) :
    (∀ fuel context op1 after, execute_instance fuel op context = some (op1, after) →
      op1.m_start = op.m_start ∧ op1.m_end = op.m_end) ∧
    ∀ fuel, (op.m_end - op.m_start).toNat ≤ fuel →
      ∃ op1 blocks, execute_instance fuel op (fresh_context b) = some (op1, ⟨b, blocks⟩) ∧
        op1.m_start = op.m_start ∧ op1.m_end = op.m_end ∧
        execute_instance fuel op1 (fresh_context b) = some (op1, ⟨b, blocks⟩) ∧
        execute_instance fuel op1 ⟨b, blocks⟩ = some (op1, ⟨b, blocks ++ blocks⟩) := by
  constructor
  · intro fuel context op1 after hrun
    unfold execute_instance at hrun
    cases hloop : execute_loop op.m_end fuel op.m_start context with
    | none => simp [hloop] at hrun
    | some c =>
      simp only [hloop, Option.map_some', Option.some.injEq, Prod.mk.injEq] at hrun
      rw [← hrun.1]
      exact ⟨rfl, rfl⟩
  · intro fuel hfuel
    obtain ⟨hle, h1, h2⟩ := operator_impl_some start end_ op hop
    obtain ⟨blocks, hrun, _⟩ :=
      execute_spec op b (h1 ▸ hs) (h2 ▸ he) (by rw [h1, h2]; exact hle) hb fuel hfuel
    have hinst : execute_instance fuel op (fresh_context b) = some (op, ⟨b, blocks⟩) := by
      unfold execute at hrun
      simp [execute_instance, hrun]
    obtain ⟨_, _, hagain, htwice⟩ := execute_instance_rerun fuel op op b ⟨b, blocks⟩ hinst
    exact ⟨op, blocks, hinst, rfl, rfl, hagain, htwice⟩

/-- Witness of C17 at the operator built from `(0, 10)` with `b = 4`. -/
theorem C17_execute_keeps_range_witness :
    is_flex_int 0 ∧ is_flex_int 10 ∧ operator_impl 0 10 = some ⟨0, 10⟩ ∧ 0 < 4 ∧
    (∀ fuel context op1 after,
      execute_instance fuel ⟨0, 10⟩ context = some (op1, after) →
      op1.m_start = (0 : Int) ∧ op1.m_end = (10 : Int)) ∧
    ∀ fuel, ((10 : Int) - 0).toNat ≤ fuel →
      ∃ op1 blocks,
        execute_instance fuel ⟨0, 10⟩ (fresh_context 4) = some (op1, ⟨4, blocks⟩) ∧
        op1.m_start = (0 : Int) ∧ op1.m_end = (10 : Int) ∧
        execute_instance fuel op1 (fresh_context 4) = some (op1, ⟨4, blocks⟩) ∧
        execute_instance fuel op1 ⟨4, blocks⟩ = some (op1, ⟨4, blocks ++ blocks⟩) :=
  ⟨by decide, by decide, by decide, by decide,
    C17_execute_keeps_range 0 10 4 ⟨0, 10⟩ (by decide) (by decide) (by decide) (by decide)⟩

/-- C18: with a block size of `0` and `start < end_`, a pass through the loop body from any
cursor emits a block of one column and zero rows and leaves the cursor where it was; the
condition `cur < m_end` therefore stays true and `execute` returns for no amount of
fuel. -/
theorem C18_zero_block_size_diverges (start end_ : Int) (already : List sframe_rows)
    (hlt : start < end_) :
    operator_impl start end_ = some ⟨start, end_⟩ ∧
    (∀ cur emitted, execute_body end_ cur ⟨0, emitted⟩ = (cur, ⟨0, emitted ++ [⟨[[]]⟩]⟩)) ∧
    (sframe_rows.mk [[]]).num_rows = 0 ∧
    ∀ fuel, execute fuel ⟨start, end_⟩ ⟨0, already⟩ = none := by
  refine ⟨by simp [operator_impl, le_of_lt hlt],
    fun cur emitted => execute_body_zero_block_size end_ cur emitted, rfl, ?_⟩
  intro fuel
  unfold execute
  show execute_loop end_ fuel start ⟨0, already⟩ = none
  induction fuel generalizing already with
  | zero => simp [execute_loop, hlt]
  | succ fuel ih =>
    simp only [execute_loop, hlt, if_true, execute_body_zero_block_size]
    exact ih _

/-- Witness of C18 at `start = 0`, `end_ = 3`. -/
theorem C18_zero_block_size_diverges_witness :
    (0 : Int) < 3 ∧
    operator_impl 0 3 = some ⟨0, 3⟩ ∧
    (∀ cur emitted, execute_body 3 cur ⟨0, emitted⟩ = (cur, ⟨0, emitted ++ [⟨[[]]⟩]⟩)) ∧
    (sframe_rows.mk [[]]).num_rows = 0 ∧
    ∀ fuel, execute fuel ⟨0, 3⟩ ⟨0, []⟩ = none :=
  ⟨by decide, C18_zero_block_size_diverges 0 3 [] (by decide)⟩

end query_eval
